import Mathlib

/-!
Verification of the shorthand-merge algorithm of
src/lib/rules/enforces-shorthand.js.

The file embeds, as executable Lean definitions, the post-extraction core
of `parseForShorthandCandidates` (grouping, merge resolution, replacement
assembly, report loop) and the helper `getBodyByShorthand`.  AST/text
extraction, `attrUtil.getClassNamesFromAttribute`, `isSingleLine` and
`groupUtil.parseClassname` are external collaborators (their outputs are
taken as inputs here), and the groups taxonomy (src/lib/config/groups) is
not part of the sources, so concrete taxonomies used in evaluations are
modelled from the spec.
-/

/-- One parsed class name, as produced by the external
`groupUtil.parseClassname` (spec section 3, ClassDescriptor).  Field order:
`name`, `leading`, `trailing`, `parentType`, `shorthand`, `value`,
`variants`, `index`. -/
structure ClassDescriptor where
  name : String
  leading : String
  trailing : String
  parentType : String
  shorthand : String
  value : String
  variants : String
  index : Nat
deriving DecidableEq

/-- An entry of a taxonomy sub-type: directional code and canonical body,
mirroring the `{ shorthand, body }` members of the groups config. -/
structure GroupMember where
  shorthand : String
  body : String
deriving DecidableEq

/-- A taxonomy sub-type, e.g. the member of type `Border Radius`. -/
structure TypeGroup where
  type : String
  members : List GroupMember
deriving DecidableEq

/-- A top-level taxonomy family group, e.g. the group of type `Borders`. -/
structure MainGroup where
  type : String
  members : List TypeGroup
deriving DecidableEq

/-- The helper `getBodyByShorthand` (enforces-shorthand.js lines 93-106): find the main
group having a member of the wanted `parentType`, then that member, then the
entry whose directional code is `sh`; each absence yields the empty
string. -/
def getBodyByShorthand (targetGroups : List MainGroup) (parentType sh : String) : String :=
  match targetGroups.find? (fun g => (g.members.find? (fun m => m.type == parentType)).isSome) with
  | none => ""
  | some mainGroup =>
    match mainGroup.members.find? (fun m => m.type == parentType) with
    | none => ""
    | some typeGroup =>
      match typeGroup.members.find? (fun m => m.shorthand == sh) with
      | none => ""
      | some t => t.body

/-- Name synthesis shared by the three merge branches (lines 229-231 and the
template strings at 235, 243, 267): `variants + minus + body + ('-' +
absoluteVal when non-empty)` where `minus`/`absoluteVal` split a leading
negative sign off the value. -/
def mkPatchedName (variants value body : String) : String :=
  let isNegative := value.take 1 == "-"
  let minus := if isNegative then "-" else ""
  let absoluteVal := if isNegative then value.drop 1 else value
  variants ++ minus ++ body ++ (if absoluteVal.length != 0 then "-" ++ absoluteVal else "")

/-- Line 213: `['Border Radius'].includes(classname.parentType)`. -/
def supportCornersOf (pt : String) : Bool :=
  (["Border Radius"] : List String).contains pt

/-- Line 214-215: top-left corner covered. -/
def hasTLIn (pt : String) (svv : List ClassDescriptor) : Bool :=
  supportCornersOf pt && svv.any (fun c => (["tl", "t", "all"] : List String).contains c.shorthand)

/-- Line 216-217: top-right corner covered. -/
def hasTRIn (pt : String) (svv : List ClassDescriptor) : Bool :=
  supportCornersOf pt && svv.any (fun c => (["tr", "t", "all"] : List String).contains c.shorthand)

/-- Line 218-219: bottom-right corner covered. -/
def hasBRIn (pt : String) (svv : List ClassDescriptor) : Bool :=
  supportCornersOf pt && svv.any (fun c => (["br", "b", "all"] : List String).contains c.shorthand)

/-- Line 220-221: bottom-left corner covered. -/
def hasBLIn (pt : String) (svv : List ClassDescriptor) : Bool :=
  supportCornersOf pt && svv.any (fun c => (["bl", "b", "all"] : List String).contains c.shorthand)

/-- Line 222: top side covered (directly, or by both top corners). -/
def hasTIn (pt : String) (svv : List ClassDescriptor) : Bool :=
  svv.any (fun c => c.shorthand == "t") || (hasTLIn pt svv && hasTRIn pt svv)

/-- Line 223: right side covered. -/
def hasRIn (pt : String) (svv : List ClassDescriptor) : Bool :=
  svv.any (fun c => c.shorthand == "r") || (hasTRIn pt svv && hasBRIn pt svv)

/-- Line 224: bottom side covered. -/
def hasBIn (pt : String) (svv : List ClassDescriptor) : Bool :=
  svv.any (fun c => c.shorthand == "b") || (hasBLIn pt svv && hasBRIn pt svv)

/-- Line 225: left side covered. -/
def hasLIn (pt : String) (svv : List ClassDescriptor) : Bool :=
  svv.any (fun c => c.shorthand == "l") || (hasTLIn pt svv && hasBLIn pt svv)

/-- Line 226: horizontal axis covered (directly, or by both sides). -/
def hasXIn (pt : String) (svv : List ClassDescriptor) : Bool :=
  svv.any (fun c => c.shorthand == "x") || (hasLIn pt svv && hasRIn pt svv)

/-- Line 227: vertical axis covered. -/
def hasYIn (pt : String) (svv : List ClassDescriptor) : Bool :=
  svv.any (fun c => c.shorthand == "y") || (hasTIn pt svv && hasBIn pt svv)

/-- Line 228: all four directions covered (directly, or by both axes). -/
def hasAllIn (pt : String) (svv : List ClassDescriptor) : Bool :=
  svv.any (fun c => c.shorthand == "all") || (hasYIn pt svv && hasXIn pt svv)

/-- The `hasAll` branch (lines 233-239): merge the whole set into the
representative `cls`, renamed with the family's `all` body; the subsumed
list records every member's name (computed before the rename). -/
def mergeAll (tg : List MainGroup) (pt : String) (svv : List ClassDescriptor)
    (cls : ClassDescriptor) : List ClassDescriptor × List (List String × String) :=
  let body := getBodyByShorthand tg pt "all"
  let patched := mkPatchedName cls.variants cls.value body
  ([{ cls with name := patched, shorthand := "all" }], [(svv.map (fun c => c.name), patched)])

/-- The `hasY || hasX` branch (lines 240-263): merge into an axis, `x`
preferred when `hasX` holds.  `toBeReplaced` collects the names of the
members carrying the merged axis's side codes; `toBeKept` retains the
members of the other axis.  In the source the representative `cls` is
mutated in place after `toBeKept` is computed, so any occurrence of the
same object inside `toBeKept` also shows the new name; object identity is
tracked here through the unique `index`. -/
def mergeAxis (tg : List MainGroup) (pt : String) (svv : List ClassDescriptor)
    (cls : ClassDescriptor) (hasX hasY : Bool) : List ClassDescriptor × List (List String × String) :=
  let xOrY := if hasX then "x" else "y"
  let body := getBodyByShorthand tg pt xOrY
  let patched := mkPatchedName cls.variants cls.value body
  let toBeReplaced :=
    (svv.filter (fun c => (if hasX then (["l", "r"] : List String) else ["t", "b"]).contains c.shorthand)).map
      (fun c => c.name)
  let toBeKept :=
    svv.filter (fun c => (if hasY then (["l", "r"] : List String) else ["t", "b"]).contains c.shorthand)
  let merged : ClassDescriptor := { cls with name := patched, shorthand := xOrY }
  (merged :: toBeKept.map (fun c => if c.index == cls.index then merged else c),
    [(toBeReplaced, patched)])

/-- The corner side branch (lines 264-287): merge into one side, picked in
the order top, right, bottom, left; corners of the chosen side are
replaced, the two corners not on it are kept. -/
def mergeSide (tg : List MainGroup) (pt : String) (svv : List ClassDescriptor)
    (cls : ClassDescriptor) (hasT hasR hasB : Bool) : List ClassDescriptor × List (List String × String) :=
  let side := if hasT then "t" else if hasR then "r" else if hasB then "b" else "l"
  let body := getBodyByShorthand tg pt side
  let patched := mkPatchedName cls.variants cls.value body
  let replacedCandidates : List String :=
    if hasT then ["tl", "tr"] else if hasR then ["tr", "br"] else if hasB then ["bl", "br"] else ["tl", "bl"]
  let keptCandidates : List String :=
    if hasT then ["bl", "br"] else if hasR then ["tl", "bl"] else if hasB then ["tl", "tr"] else ["tr", "br"]
  let toBeReplaced := (svv.filter (fun c => replacedCandidates.contains c.shorthand)).map (fun c => c.name)
  let toBeKept := svv.filter (fun c => keptCandidates.contains c.shorthand)
  let merged : ClassDescriptor := { cls with name := patched, shorthand := side }
  (merged :: toBeKept.map (fun c => if c.index == cls.index then merged else c),
    [(toBeReplaced, patched)])

/-- The merge resolver for one candidate set (lines 212-290): priority
cascade all, then axis, then (corner families) side, else keep every
member unmodified with no trouble recorded. -/
def resolveSet (tg : List MainGroup) (pt : String) (svv : List ClassDescriptor)
    (cls : ClassDescriptor) : List ClassDescriptor × List (List String × String) :=
  if hasAllIn pt svv then mergeAll tg pt svv cls
  else if hasYIn pt svv || hasXIn pt svv then
    mergeAxis tg pt svv cls (hasXIn pt svv) (hasYIn pt svv)
  else if supportCornersOf pt && (hasTIn pt svv || hasRIn pt svv || hasBIn pt svv || hasLIn pt svv) then
    mergeSide tg pt svv cls (hasTIn pt svv) (hasRIn pt svv) (hasBIn pt svv)
  else (svv, [])

/-- Line 200: `parsed.filter((cls) => cls.parentType === classname.parentType)`. -/
def sameTypeOf (parsed : List ClassDescriptor) (classname : ClassDescriptor) : List ClassDescriptor :=
  parsed.filter (fun cls => cls.parentType == classname.parentType)

/-- Lines 207-209: `sameType.filter((v) => v.variants === cls.variants &&
v.value === cls.value)`. -/
def sameVariantAndValueOf (sameType : List ClassDescriptor) (cls : ClassDescriptor) : List ClassDescriptor :=
  sameType.filter (fun v => v.variants == cls.variants && v.value == cls.value)

/-- Lines 210-291: one `(variants, value)` key of a family; a singleton set
is passed through, a larger one goes to the resolver. -/
def processKey (tg : List MainGroup) (pt : String) (sameType : List ClassDescriptor)
    (cls : ClassDescriptor) : List ClassDescriptor × List (List String × String) :=
  if (sameVariantAndValueOf sameType cls).length == 1 then ([cls], [])
  else if (sameVariantAndValueOf sameType cls).length != 0 then
    resolveSet tg pt (sameVariantAndValueOf sameType cls) cls
  else ([], [])

/-- The inner `sameType.forEach` with the `checkedVariantsValue` key
dedup (lines 202-293), collecting validated descriptors and troubles in
push order. -/
def innerLoop (tg : List MainGroup) (pt : String) (sameType : List ClassDescriptor) :
    List ClassDescriptor → List String → List ClassDescriptor × List (List String × String)
  | [], _ => ([], [])
  | cls :: rest, checked =>
    let key := cls.variants ++ cls.value
    if checked.contains key then innerLoop tg pt sameType rest checked
    else
      let r := processKey tg pt sameType cls
      let r2 := innerLoop tg pt sameType rest (checked ++ [key])
      (r.1 ++ r2.1, r.2 ++ r2.2)

/-- The outer `parsed.forEach` with the `checkedGroups` dedup (lines
191-295): empty `parentType` passes straight through, each non-empty
family is processed once over the whole `parsed` list. -/
def outerLoop (tg : List MainGroup) (parsed : List ClassDescriptor) :
    List ClassDescriptor → List String → List ClassDescriptor × List (List String × String)
  | [], _ => ([], [])
  | classname :: rest, checkedGroups =>
    if classname.parentType == "" then
      let r := outerLoop tg parsed rest checkedGroups
      (classname :: r.1, r.2)
    else if checkedGroups.contains classname.parentType then
      outerLoop tg parsed rest checkedGroups
    else
      let sameType := sameTypeOf parsed classname
      let g := innerLoop tg classname.parentType sameType sameType []
      let r := outerLoop tg parsed rest (checkedGroups ++ [classname.parentType])
      (g.1 ++ r.1, g.2 ++ r.2)

/-- The whole grouping and merging pass over the parsed descriptors
(lines 191-295), yielding the validated list and the troubles. -/
def processParsed (tg : List MainGroup) (parsed : List ClassDescriptor) :
    List ClassDescriptor × List (List String × String) :=
  outerLoop tg parsed parsed []

/-- The `/^(\s)*$/` test of line 171 on the usual whitespace. -/
def spacesOnly (s : String) : Bool :=
  s.all (fun c => c.isWhitespace)

/-- Lines 170-178: on a multi-line segment, a whitespace-only first token
is shifted off as `before` and a whitespace-only last token is popped off
as `after`.  Returns `(before, remaining, after)`. -/
def strippedOf (isSingleLine : Bool) (tokens : List String) :
    Option String × List String × Option String :=
  if isSingleLine then (none, tokens, none)
  else
    let p1 : Option String × List String :=
      match tokens with
      | [] => (none, [])
      | t :: ts => if spacesOnly t then (some t, ts) else (none, t :: ts)
    let p2 : List String × Option String :=
      match p1.2.getLast? with
      | none => (p1.2, none)
      | some t => if spacesOnly t then (p1.2.dropLast, some t) else (p1.2, none)
    (p1.1, p2.1, p2.2)

/-- Lines 187-189: the external parser applied to each token with its
position index. -/
def segmentDescriptors (parse : String → Nat → ClassDescriptor) (tokens : List String) :
    List ClassDescriptor :=
  tokens.mapIdx (fun i s => parse s i)

/-- Lines 297-306: reassemble `leading + name + trailing` of every
validated descriptor, reattach `before`/`after`, and join with a space
(single-line) or a newline (multi-line). -/
def reconstructedValue (isSingleLine : Bool) (before after : Option String)
    (validated : List ClassDescriptor) : String :=
  let union := validated.map (fun val => val.leading ++ val.name ++ val.trailing)
  let union := match before with | some b => b :: union | none => union
  let union := match after with | some a => union ++ [a] | none => union
  String.intercalate (if isSingleLine then " " else "\n") union

/-- JS `String.prototype.trim` on the character-list model of strings:
drop leading and trailing whitespace. -/
def jsTrim (s : String) : String :=
  String.mk (((s.data.dropWhile Char.isWhitespace).reverse.dropWhile Char.isWhitespace).reverse)

/-- Line 307: the original trimmed for a single-line segment, untouched
otherwise. -/
def originalPatchedOf (isSingleLine : Bool) (original : String) : String :=
  if isSingleLine then jsTrim original else original

/-- One reported finding: the subsumed class names, the shorthand name,
and the text the fix writes over the segment's range. -/
structure Finding where
  classnames : List String
  shorthand : String
  fixText : String
deriving DecidableEq

/-- The report loop (lines 308-328) over the troubles that survived the
`trouble[0].length` filter.  Mirrors the source exactly: the running
replacement value is compared with the patched original, and on a report
the prefix and suffix are appended onto the running value itself, which
the next iteration then reuses (ESLint materialises each fix at report
time, so each finding captures the value current at its own report). -/
def reportLoop (originalPatched pre suf : String) :
    List (List String × String) → String → List Finding
  | [], _ => []
  | t :: ts, v =>
    if originalPatched != v then
      let v2 := pre ++ v ++ suf
      { classnames := t.1, shorthand := t.2, fixText := v2 } :: reportLoop originalPatched pre suf ts v2
    else reportLoop originalPatched pre suf ts v

/-- The troubles computed for a segment before the report filter. -/
def segmentTroubles (tg : List MainGroup) (parse : String → Nat → ClassDescriptor)
    (isSingleLine : Bool) (tokens : List String) : List (List String × String) :=
  let s := strippedOf isSingleLine tokens
  (processParsed tg (segmentDescriptors parse s.2.1)).2

/-- The fully reassembled replacement value of a segment (the
`validatedClassNamesValue` of line 306, before any prefixing). -/
def reconstructedOf (tg : List MainGroup) (parse : String → Nat → ClassDescriptor)
    (isSingleLine : Bool) (tokens : List String) : String :=
  let s := strippedOf isSingleLine tokens
  let vt := processParsed tg (segmentDescriptors parse s.2.1)
  reconstructedValue isSingleLine s.1 s.2.2 vt.1

/-- The post-extraction core of `parseForShorthandCandidates` (lines
165-329): strip whitespace-only edge tokens of a multi-line segment,
return with no findings when at most one token remains, otherwise parse,
merge, reassemble and run the report loop. -/
def parseForShorthandCandidates (tg : List MainGroup) (parse : String → Nat → ClassDescriptor)
    (tokens : List String) (isSingleLine : Bool) (original pre suf : String) : List Finding :=
  if ((strippedOf isSingleLine tokens).2.1).length ≤ 1 then []
  else
    reportLoop (originalPatchedOf isSingleLine original) pre suf
      ((segmentTroubles tg parse isSingleLine tokens).filter (fun t => t.1.length != 0))
      (reconstructedOf tg parse isSingleLine tokens)

/-- Modelled from the spec: the groups taxonomy (src/lib/config/groups is
not among the sources).  A minimal instance of the shape section 3
describes, holding the Spacing family with the Margin and Padding
sub-types and the Borders family with the corner-supporting Border Radius
sub-type, each mapping directional codes to canonical bodies. -/
def tgDemo : List MainGroup :=
  [⟨"Spacing",
    [⟨"Margin",
      [⟨"all", "m"⟩, ⟨"x", "mx"⟩, ⟨"y", "my"⟩, ⟨"t", "mt"⟩, ⟨"r", "mr"⟩, ⟨"b", "mb"⟩, ⟨"l", "ml"⟩]⟩,
     ⟨"Padding",
      [⟨"all", "p"⟩, ⟨"x", "px"⟩, ⟨"y", "py"⟩, ⟨"t", "pt"⟩, ⟨"r", "pr"⟩, ⟨"b", "pb"⟩, ⟨"l", "pl"⟩]⟩]⟩,
   ⟨"Borders",
    [⟨"Border Radius",
      [⟨"all", "rounded"⟩, ⟨"t", "rounded-t"⟩, ⟨"r", "rounded-r"⟩, ⟨"b", "rounded-b"⟩,
       ⟨"l", "rounded-l"⟩, ⟨"tl", "rounded-tl"⟩, ⟨"tr", "rounded-tr"⟩, ⟨"br", "rounded-br"⟩,
       ⟨"bl", "rounded-bl"⟩]⟩]⟩]

/-- Modelled from the spec: a taxonomy whose Margin sub-type lacks the
`y` entry, to exercise the empty-string outcome of the lookup. -/
def tgNoY : List MainGroup :=
  [⟨"Spacing", [⟨"Margin", [⟨"t", "mt"⟩, ⟨"b", "mb"⟩]⟩]⟩]

/-- Modelled from the spec: a concrete instance of the external
`groupUtil.parseClassname` for the handful of class names the evaluation
theorems feed in; any other token is an unrecognized passthrough with
empty `parentType`. -/
def parseDemo (s : String) (i : Nat) : ClassDescriptor :=
  if s == "mt-1" then ⟨s, "", "", "Margin", "t", "1", "", i⟩
  else if s == "mb-1" then ⟨s, "", "", "Margin", "b", "1", "", i⟩
  else if s == "pt-2" then ⟨s, "", "", "Padding", "t", "2", "", i⟩
  else if s == "pb-2" then ⟨s, "", "", "Padding", "b", "2", "", i⟩
  else if s == "rounded-tl-lg" then ⟨s, "", "", "Border Radius", "tl", "lg", "", i⟩
  else if s == "rounded-tr-lg" then ⟨s, "", "", "Border Radius", "tr", "lg", "", i⟩
  else if s == "rounded-br-lg" then ⟨s, "", "", "Border Radius", "br", "lg", "", i⟩
  else if s == "rounded-bl-lg" then ⟨s, "", "", "Border Radius", "bl", "lg", "", i⟩
  else if s == "rounded-b-lg" then ⟨s, "", "", "Border Radius", "b", "lg", "", i⟩
  else ⟨s, "", "", "", "", s, "", i⟩

/-- Modelled from the spec: the fully expanded direction set of a
directional code for a corner-supporting family, over the four corners
(section 3: two opposite corners imply a side, two adjacent sides an
axis, two axes all). -/
def cornerExpansion (code : String) : List String :=
  if code == "all" then ["tl", "tr", "br", "bl"]
  else if code == "x" then ["tl", "tr", "br", "bl"]
  else if code == "y" then ["tl", "tr", "br", "bl"]
  else if code == "t" then ["tl", "tr"]
  else if code == "r" then ["tr", "br"]
  else if code == "b" then ["bl", "br"]
  else if code == "l" then ["tl", "bl"]
  else if (["tl", "tr", "br", "bl"] : List String).contains code then [code]
  else []

/-- Whether some descriptor of the list styles the given corner for the
given family, variants and value. -/
def coversCorner (l : List ClassDescriptor) (pt variants value corner : String) : Bool :=
  l.any (fun d =>
    d.parentType == pt && d.variants == variants && d.value == value &&
      (cornerExpansion d.shorthand).contains corner)

/-- Claim C2: refuted at a concrete input.  For a segment carrying a
non-empty template prefix and suffix, two merges at one location get two
different fix payloads: the report loop (lines 313-328) reassigns
`validatedClassNamesValue = prefix + validatedClassNamesValue + suffix`
inside the per-finding loop, so the second finding's fix re-wraps the
prefix and suffix a second time. -/
theorem fix_payload_divergence_under_prefix :
    parseForShorthandCandidates tgDemo parseDemo ["mt-1", "mb-1", "pt-2", "pb-2"] true
        "mt-1 mb-1 pt-2 pb-2" "P" "S" =
      [⟨["mt-1", "mb-1"], "my-1", "Pmy-1 py-2S"⟩,
       ⟨["pt-2", "pb-2"], "py-2", "PPmy-1 py-2SS"⟩] ∧
    ("Pmy-1 py-2S" : String) ≠ "PPmy-1 py-2SS" := by
  constructor
  · rfl
  · decide

/-- Claim C4: refuted at a concrete input.  On the candidate set
rounded-tl-lg, rounded-b-lg the side branch picks `b`, renames the
representative (the top-left descriptor) to rounded-b-lg, emits it twice
(once directly and once through `toBeKept`, which holds the same mutated
object) and drops the original rounded-b-lg descriptor: the top-left
corner's styling is lost from the output. -/
theorem coverage_lost_corner_side_merge :
    (processParsed tgDemo (segmentDescriptors parseDemo ["rounded-tl-lg", "rounded-b-lg"])).1 =
      [⟨"rounded-b-lg", "", "", "Border Radius", "b", "lg", "", 0⟩,
       ⟨"rounded-b-lg", "", "", "Border Radius", "b", "lg", "", 0⟩] ∧
    coversCorner (segmentDescriptors parseDemo ["rounded-tl-lg", "rounded-b-lg"])
        "Border Radius" "" "lg" "tl" = true ∧
    coversCorner (processParsed tgDemo (segmentDescriptors parseDemo
        ["rounded-tl-lg", "rounded-b-lg"])).1 "Border Radius" "" "lg" "tl" = false := by
  refine ⟨rfl, rfl, rfl⟩

/-- Claim C5: the spec's own ordering rounded-tl-lg, rounded-tr-lg,
rounded-bl-lg does merge to rounded-t-lg plus the untouched rounded-bl-lg,
but with the remaining corner listed first (rounded-tl-lg, rounded-br-lg,
rounded-bl-lg) the first member of the set becomes the renamed
representative even though it is not on the merged side: the output is
rounded-b-lg twice, and the remaining corner is not kept untouched. -/
theorem three_corner_merge_order_dependent :
    (processParsed tgDemo (segmentDescriptors parseDemo
        ["rounded-tl-lg", "rounded-tr-lg", "rounded-bl-lg"])).1.map (fun d => d.name) =
      ["rounded-t-lg", "rounded-bl-lg"] ∧
    (processParsed tgDemo (segmentDescriptors parseDemo
        ["rounded-tl-lg", "rounded-br-lg", "rounded-bl-lg"])).1.map (fun d => d.name) =
      ["rounded-b-lg", "rounded-b-lg"] ∧
    (processParsed tgDemo (segmentDescriptors parseDemo
        ["rounded-tl-lg", "rounded-br-lg", "rounded-bl-lg"])).2 =
      [(["rounded-br-lg", "rounded-bl-lg"], "rounded-b-lg")] := by
  refine ⟨rfl, rfl, rfl⟩

/-- Claim C9: counterexample to the caller half.  With a taxonomy whose
Margin sub-type has no `y` entry, the lookup duly returns the empty
string, but the axis branch still synthesizes the merged name from the
empty body, producing the class name "-1", recording the trouble, and
reporting a finding whose fix writes "-1". -/
theorem empty_body_synthesis_cx :
    getBodyByShorthand tgNoY "Margin" "y" = "" ∧
    processParsed tgNoY (segmentDescriptors parseDemo ["mt-1", "mb-1"]) =
      ([⟨"-1", "", "", "Margin", "y", "1", "", 0⟩], [(["mt-1", "mb-1"], "-1")]) ∧
    parseForShorthandCandidates tgNoY parseDemo ["mt-1", "mb-1"] true "mt-1 mb-1" "" "" =
      [⟨["mt-1", "mb-1"], "-1", "-1"⟩] := by
  refine ⟨rfl, rfl, rfl⟩

/-- Claim C10: when at most one class token remains after setting aside
the whitespace-only edge tokens of a multi-line segment (lines 165-183),
the analysis returns at once: no descriptor is parsed (the result does not
depend on the parser) and no finding or fix is produced. -/
theorem single_token_segment_no_findings (tg : List MainGroup)
    (parse : String → Nat → ClassDescriptor) (tokens : List String) (isSingleLine : Bool)
    (original pre suf : String)
    (h : ((strippedOf isSingleLine tokens).2.1).length ≤ 1) :
    parseForShorthandCandidates tg parse tokens isSingleLine original pre suf = [] := by
  unfold parseForShorthandCandidates
  simp [h]

/-- Closed instance of the single-token early return. -/
theorem single_token_segment_no_findings_witness :
    ((strippedOf true ["mt-3"]).2.1).length ≤ 1 ∧
    parseForShorthandCandidates tgDemo parseDemo ["mt-3"] true "mt-3" "" "" = [] :=
  ⟨by decide,
   single_token_segment_no_findings tgDemo parseDemo ["mt-3"] true "mt-3" "" "" (by decide)⟩

/-- Every finding emitted by the report loop takes its subsumed-names list
from one of the troubles it was fed. -/
theorem reportLoop_classnames_mem (op pre suf : String) (ts : List (List String × String)) :
    ∀ v f, f ∈ reportLoop op pre suf ts v → ∃ t, t ∈ ts ∧ f.classnames = t.1 := by
  induction ts with
  | nil => intro v f h; simp [reportLoop] at h
  | cons t rest ih =>
    intro v f h
    simp only [reportLoop] at h
    by_cases hv : (op != v) = true
    · rw [if_pos hv] at h
      rcases List.mem_cons.mp h with h1 | h2
      · exact ⟨t, List.mem_cons_self t rest, by rw [h1]⟩
      · obtain ⟨u, hu, he⟩ := ih _ f h2
        exact ⟨u, List.mem_cons_of_mem t hu, he⟩
    · rw [if_neg hv] at h
      obtain ⟨u, hu, he⟩ := ih _ f h
      exact ⟨u, List.mem_cons_of_mem t hu, he⟩

/-- When the running replacement value starts out equal to the patched
original, the report loop emits nothing (the value is then never
reassigned, so every comparison fails). -/
theorem reportLoop_eq_nil (op pre suf : String) (ts : List (List String × String)) :
    reportLoop op pre suf ts op = [] := by
  induction ts with
  | nil => rfl
  | cons t rest ih => simp [reportLoop, ih]

/-- Claim C1: a finding is reported only when its merge subsumed at least
one original class name (the `trouble[0].length` filter of line 311) and
the reassembled replacement value differs from the original — trimmed for
a single-line segment, untouched for a multi-line one (lines 307, 314);
when the reassembled value equals the patched original, no finding and no
fix at all are emitted for the segment. -/
theorem finding_requires_subsumption_and_change (tg : List MainGroup)
    (parse : String → Nat → ClassDescriptor) (tokens : List String) (isSingleLine : Bool)
    (original pre suf : String) :
    (∀ f ∈ parseForShorthandCandidates tg parse tokens isSingleLine original pre suf,
        f.classnames ≠ []) ∧
    (reconstructedOf tg parse isSingleLine tokens = originalPatchedOf isSingleLine original →
      parseForShorthandCandidates tg parse tokens isSingleLine original pre suf = []) := by
  constructor
  · intro f hf
    unfold parseForShorthandCandidates at hf
    by_cases hlen : ((strippedOf isSingleLine tokens).2.1).length ≤ 1
    · rw [if_pos hlen] at hf
      simp at hf
    · rw [if_neg hlen] at hf
      obtain ⟨t, ht, he⟩ := reportLoop_classnames_mem _ _ _ _ _ _ hf
      obtain ⟨-, hne⟩ := List.mem_filter.mp ht
      intro hempty
      rw [hempty] at he
      rw [← he] at hne
      simp at hne
  · intro h
    unfold parseForShorthandCandidates
    by_cases hlen : ((strippedOf isSingleLine tokens).2.1).length ≤ 1
    · rw [if_pos hlen]
    · rw [if_neg hlen, h]
      exact reportLoop_eq_nil _ _ _ _

/-- Closed instance: on a segment whose merge leaves the text unchanged,
no finding is emitted. -/
theorem finding_requires_subsumption_and_change_witness :
    parseForShorthandCandidates tgDemo parseDemo ["foo", "bar"] true "foo bar" "" "" = [] :=
  (finding_requires_subsumption_and_change tgDemo parseDemo ["foo", "bar"] true
    "foo bar" "" "").2 (by decide)

/-- Claim C6: any two members of one candidate merge set — the
`sameVariantAndValue` filter (lines 207-209) applied to the `sameType`
filter (line 200) — agree on `parentType`, `variants` and `value` (sign
included); descriptors differing in any of the three never end up in one
set, so they are never merged together. -/
theorem merge_set_shares_type_variants_value (parsed : List ClassDescriptor)
    (classname cls a b : ClassDescriptor)
    (ha : a ∈ sameVariantAndValueOf (sameTypeOf parsed classname) cls)
    (hb : b ∈ sameVariantAndValueOf (sameTypeOf parsed classname) cls) :
    a.parentType = b.parentType ∧ a.variants = b.variants ∧ a.value = b.value := by
  obtain ⟨ha1, ha2⟩ := List.mem_filter.mp ha
  obtain ⟨hb1, hb2⟩ := List.mem_filter.mp hb
  obtain ⟨-, ha4⟩ := List.mem_filter.mp ha1
  obtain ⟨-, hb4⟩ := List.mem_filter.mp hb1
  simp only [Bool.and_eq_true, beq_iff_eq] at ha2 hb2 ha4 hb4
  exact ⟨ha4.trans hb4.symm, ha2.1.trans hb2.1.symm, ha2.2.trans hb2.2.symm⟩

/-- Closed instance of the shared-key property on a concrete set. -/
theorem merge_set_shares_type_variants_value_witness :
    (parseDemo "mt-1" 0).parentType = (parseDemo "mb-1" 1).parentType ∧
    (parseDemo "mt-1" 0).variants = (parseDemo "mb-1" 1).variants ∧
    (parseDemo "mt-1" 0).value = (parseDemo "mb-1" 1).value :=
  merge_set_shares_type_variants_value [parseDemo "mt-1" 0, parseDemo "mb-1" 1]
    (parseDemo "mt-1" 0) (parseDemo "mt-1" 0) (parseDemo "mt-1" 0) (parseDemo "mb-1" 1)
    (by decide) (by decide)

/-- Claim C3: the resolver's branches fire in strict priority order with
first match winning (lines 233-290): full coverage merges the whole set;
otherwise one axis, with `x` taken whenever it is derivable (the
`hasX ? 'x' : 'y'` pick of line 241); otherwise, only for
corner-supporting families, one side in the order top, right, bottom,
left; otherwise every member is kept unmodified and no trouble is
recorded. -/
theorem resolver_priority_order (tg : List MainGroup) (pt : String)
    (svv : List ClassDescriptor) (cls : ClassDescriptor) :
    (hasAllIn pt svv = true → resolveSet tg pt svv cls = mergeAll tg pt svv cls) ∧
    (hasAllIn pt svv = false → hasXIn pt svv = true →
      resolveSet tg pt svv cls = mergeAxis tg pt svv cls true (hasYIn pt svv)) ∧
    (hasAllIn pt svv = false → hasXIn pt svv = false → hasYIn pt svv = true →
      resolveSet tg pt svv cls = mergeAxis tg pt svv cls false true) ∧
    (hasAllIn pt svv = false → hasXIn pt svv = false → hasYIn pt svv = false →
      supportCornersOf pt = true → hasTIn pt svv = true →
      resolveSet tg pt svv cls = mergeSide tg pt svv cls true (hasRIn pt svv) (hasBIn pt svv)) ∧
    (hasAllIn pt svv = false → hasXIn pt svv = false → hasYIn pt svv = false →
      supportCornersOf pt = true → hasTIn pt svv = false → hasRIn pt svv = true →
      resolveSet tg pt svv cls = mergeSide tg pt svv cls false true (hasBIn pt svv)) ∧
    (hasAllIn pt svv = false → hasXIn pt svv = false → hasYIn pt svv = false →
      supportCornersOf pt = true → hasTIn pt svv = false → hasRIn pt svv = false →
      hasBIn pt svv = true →
      resolveSet tg pt svv cls = mergeSide tg pt svv cls false false true) ∧
    (hasAllIn pt svv = false → hasXIn pt svv = false → hasYIn pt svv = false →
      supportCornersOf pt = true → hasTIn pt svv = false → hasRIn pt svv = false →
      hasBIn pt svv = false → hasLIn pt svv = true →
      resolveSet tg pt svv cls = mergeSide tg pt svv cls false false false) ∧
    (hasAllIn pt svv = false → hasXIn pt svv = false → hasYIn pt svv = false →
      supportCornersOf pt = false → resolveSet tg pt svv cls = (svv, [])) ∧
    (hasAllIn pt svv = false → hasXIn pt svv = false → hasYIn pt svv = false →
      hasTIn pt svv = false → hasRIn pt svv = false → hasBIn pt svv = false →
      hasLIn pt svv = false → resolveSet tg pt svv cls = (svv, [])) := by
  refine ⟨?_, ?_, ?_, ?_, ?_, ?_, ?_, ?_, ?_⟩
  · intro h1; simp [resolveSet, h1]
  · intro h1 h2; simp [resolveSet, h1, h2]
  · intro h1 h2 h3; simp [resolveSet, h1, h2, h3]
  · intro h1 h2 h3 h4 h5; simp [resolveSet, h1, h2, h3, h4, h5]
  · intro h1 h2 h3 h4 h5 h6; simp [resolveSet, h1, h2, h3, h4, h5, h6]
  · intro h1 h2 h3 h4 h5 h6 h7; simp [resolveSet, h1, h2, h3, h4, h5, h6, h7]
  · intro h1 h2 h3 h4 h5 h6 h7 h8; simp [resolveSet, h1, h2, h3, h4, h5, h6, h7, h8]
  · intro h1 h2 h3 h4; simp [resolveSet, h1, h2, h3, h4]
  · intro h1 h2 h3 h4 h5 h6 h7; simp [resolveSet, h1, h2, h3, h4, h5, h6, h7]

/-- Closed instance: a set holding both axes resolves through the full
coverage branch. -/
theorem resolver_priority_order_witness :
    resolveSet tgDemo "Margin"
        [⟨"mx-1", "", "", "Margin", "x", "1", "", 0⟩, ⟨"my-1", "", "", "Margin", "y", "1", "", 1⟩]
        ⟨"mx-1", "", "", "Margin", "x", "1", "", 0⟩ =
      mergeAll tgDemo "Margin"
        [⟨"mx-1", "", "", "Margin", "x", "1", "", 0⟩, ⟨"my-1", "", "", "Margin", "y", "1", "", 1⟩]
        ⟨"mx-1", "", "", "Margin", "x", "1", "", 0⟩ :=
  (resolver_priority_order tgDemo "Margin" _ _).1 (by decide)

/-- Claim C9, amended half: the lookup itself is total — when no family
group has a member of the wanted `parentType`, or no entry anywhere
carries the wanted directional code, `getBodyByShorthand` returns the
empty string rather than failing. -/
theorem lookup_absent_returns_empty (tg : List MainGroup) (pt sh : String) :
    ((∀ g ∈ tg, ∀ m ∈ g.members, m.type ≠ pt) → getBodyByShorthand tg pt sh = "") ∧
    ((∀ g ∈ tg, ∀ m ∈ g.members, ∀ e ∈ m.members, e.shorthand ≠ sh) →
      getBodyByShorthand tg pt sh = "") := by
  constructor
  · intro h
    have hnone : tg.find? (fun g => (g.members.find? (fun m => m.type == pt)).isSome) = none := by
      rw [List.find?_eq_none]
      intro g hg
      cases hm : g.members.find? (fun m => m.type == pt) with
      | none => simp [hm]
      | some m =>
        exfalso
        exact h g hg m (List.mem_of_find?_eq_some hm) (by simpa using List.find?_some hm)
    unfold getBodyByShorthand
    rw [hnone]
  · intro h
    unfold getBodyByShorthand
    split
    · rfl
    · rename_i g hfind
      split
      · rfl
      · rename_i m hm
        split
        · rfl
        · rename_i e he
          exfalso
          exact h g (List.mem_of_find?_eq_some hfind) m (List.mem_of_find?_eq_some hm) e
            (List.mem_of_find?_eq_some he) (by simpa using List.find?_some he)

/-- Closed instance: a family absent from the taxonomy yields the empty
body. -/
theorem lookup_absent_returns_empty_witness :
    getBodyByShorthand tgDemo "Gap" "y" = "" :=
  (lookup_absent_returns_empty tgDemo "Gap" "y").1 (by decide)

/-- Membership in a candidate set implies membership in the underlying
`sameType` list. -/
theorem mem_of_mem_svv {st : List ClassDescriptor} {cls d : ClassDescriptor}
    (h : d ∈ sameVariantAndValueOf st cls) : d ∈ st :=
  List.mem_of_mem_filter h

/-- Membership in a `sameType` list means membership in `parsed` with the
same family as the opening descriptor. -/
theorem sameTypeOf_mem {parsed : List ClassDescriptor} {c d : ClassDescriptor}
    (h : d ∈ sameTypeOf parsed c) : d ∈ parsed ∧ d.parentType = c.parentType := by
  have h2 := List.mem_filter.mp h
  exact ⟨h2.1, by simpa using h2.2⟩

/-- The full-coverage branch only outputs the renamed representative,
whose family is the representative's. -/
theorem mergeAll_mem (tg : List MainGroup) (pt : String) (svv : List ClassDescriptor)
    (cls d : ClassDescriptor) (hd : d ∈ (mergeAll tg pt svv cls).1) :
    d.parentType = cls.parentType ∧ d.variants = cls.variants ∧ d.value = cls.value := by
  simp only [mergeAll, List.mem_singleton] at hd
  rw [hd]; exact ⟨rfl, rfl, rfl⟩

/-- Every output of the axis branch is a member of the set or carries the
representative's family. -/
theorem mergeAxis_mem (tg : List MainGroup) (pt : String) (svv : List ClassDescriptor)
    (cls : ClassDescriptor) (hX hY : Bool) (d : ClassDescriptor)
    (hd : d ∈ (mergeAxis tg pt svv cls hX hY).1) :
    d ∈ svv ∨ (d.parentType = cls.parentType ∧ d.variants = cls.variants ∧ d.value = cls.value) := by
  simp only [mergeAxis, List.mem_cons, List.mem_map] at hd
  rcases hd with hd | ⟨c, hc, hcd⟩
  · right; rw [hd]; exact ⟨rfl, rfl, rfl⟩
  · by_cases hidx : (c.index == cls.index) = true
    · rw [if_pos hidx] at hcd; right; rw [← hcd]; exact ⟨rfl, rfl, rfl⟩
    · rw [if_neg hidx] at hcd; left; rw [← hcd]; exact List.mem_of_mem_filter hc

/-- Every output of the side branch is a member of the set or carries the
representative's family. -/
theorem mergeSide_mem (tg : List MainGroup) (pt : String) (svv : List ClassDescriptor)
    (cls : ClassDescriptor) (hT hR hB : Bool) (d : ClassDescriptor)
    (hd : d ∈ (mergeSide tg pt svv cls hT hR hB).1) :
    d ∈ svv ∨ (d.parentType = cls.parentType ∧ d.variants = cls.variants ∧ d.value = cls.value) := by
  simp only [mergeSide, List.mem_cons, List.mem_map] at hd
  rcases hd with hd | ⟨c, hc, hcd⟩
  · right; rw [hd]; exact ⟨rfl, rfl, rfl⟩
  · by_cases hidx : (c.index == cls.index) = true
    · rw [if_pos hidx] at hcd; right; rw [← hcd]; exact ⟨rfl, rfl, rfl⟩
    · rw [if_neg hidx] at hcd; left; rw [← hcd]; exact List.mem_of_mem_filter hc

/-- Every output of the resolver is a member of the set or carries the
representative's family. -/
theorem resolveSet_mem (tg : List MainGroup) (pt : String) (svv : List ClassDescriptor)
    (cls d : ClassDescriptor) (hd : d ∈ (resolveSet tg pt svv cls).1) :
    d ∈ svv ∨ (d.parentType = cls.parentType ∧ d.variants = cls.variants ∧ d.value = cls.value) := by
  unfold resolveSet at hd
  split_ifs at hd with h1 h2 h3
  · exact Or.inr (mergeAll_mem tg pt svv cls d hd)
  · exact mergeAxis_mem tg pt svv cls _ _ d hd
  · exact mergeSide_mem tg pt svv cls _ _ _ d hd
  · exact Or.inl hd

/-- Every subsumed name recorded by the full-coverage branch names some
member of the set. -/
theorem mergeAll_trouble (tg : List MainGroup) (pt : String) (svv : List ClassDescriptor)
    (cls : ClassDescriptor) (p : List String × String) (hp : p ∈ (mergeAll tg pt svv cls).2) :
    ∀ n ∈ p.1, ∃ d ∈ svv, d.name = n := by
  simp only [mergeAll, List.mem_singleton] at hp
  subst hp
  intro n hn
  exact List.mem_map.mp hn

/-- Every subsumed name recorded by the axis branch names some member of
the set. -/
theorem mergeAxis_trouble (tg : List MainGroup) (pt : String) (svv : List ClassDescriptor)
    (cls : ClassDescriptor) (hX hY : Bool) (p : List String × String)
    (hp : p ∈ (mergeAxis tg pt svv cls hX hY).2) :
    ∀ n ∈ p.1, ∃ d ∈ svv, d.name = n := by
  simp only [mergeAxis, List.mem_singleton] at hp
  subst hp
  intro n hn
  obtain ⟨d, hd, he⟩ := List.mem_map.mp hn
  exact ⟨d, List.mem_of_mem_filter hd, he⟩

/-- Every subsumed name recorded by the side branch names some member of
the set. -/
theorem mergeSide_trouble (tg : List MainGroup) (pt : String) (svv : List ClassDescriptor)
    (cls : ClassDescriptor) (hT hR hB : Bool) (p : List String × String)
    (hp : p ∈ (mergeSide tg pt svv cls hT hR hB).2) :
    ∀ n ∈ p.1, ∃ d ∈ svv, d.name = n := by
  simp only [mergeSide, List.mem_singleton] at hp
  subst hp
  intro n hn
  obtain ⟨d, hd, he⟩ := List.mem_map.mp hn
  exact ⟨d, List.mem_of_mem_filter hd, he⟩

/-- Every subsumed name recorded by the resolver names some member of the
set. -/
theorem resolveSet_trouble (tg : List MainGroup) (pt : String) (svv : List ClassDescriptor)
    (cls : ClassDescriptor) (p : List String × String) (hp : p ∈ (resolveSet tg pt svv cls).2) :
    ∀ n ∈ p.1, ∃ d ∈ svv, d.name = n := by
  unfold resolveSet at hp
  split_ifs at hp with h1 h2 h3
  · exact mergeAll_trouble tg pt svv cls p hp
  · exact mergeAxis_trouble tg pt svv cls _ _ p hp
  · exact mergeSide_trouble tg pt svv cls _ _ _ p hp
  · simp at hp

/-- Every validated descriptor produced while processing one family keeps
that family's `parentType`. -/
theorem innerLoop_mem (tg : List MainGroup) (pt : String) (sameType : List ClassDescriptor)
    (PT : String) (hst : ∀ x ∈ sameType, x.parentType = PT) :
    ∀ (l : List ClassDescriptor) (checked : List String),
      (∀ x ∈ l, x.parentType = PT) →
      ∀ d ∈ (innerLoop tg pt sameType l checked).1, d.parentType = PT := by
  intro l
  induction l with
  | nil => intro checked _ d hd; simp [innerLoop] at hd
  | cons cls rest ih =>
    intro checked hl d hd
    simp only [innerLoop] at hd
    by_cases hc : (checked.contains (cls.variants ++ cls.value)) = true
    · rw [if_pos hc] at hd
      exact ih _ (fun x hx => hl x (List.mem_cons_of_mem _ hx)) d hd
    · rw [if_neg hc] at hd
      rcases List.mem_append.mp hd with hd | hd
      · have hcls : cls.parentType = PT := hl cls (List.mem_cons_self _ _)
        unfold processKey at hd
        split_ifs at hd with k1 k2
        · simp only [List.mem_singleton] at hd; rw [hd]; exact hcls
        · rcases resolveSet_mem tg pt _ cls d hd with hm | hm
          · exact hst d (mem_of_mem_svv hm)
          · rw [hm.1]; exact hcls
        · simp at hd
      · exact ih _ (fun x hx => hl x (List.mem_cons_of_mem _ hx)) d hd

/-- Every subsumed name recorded while processing one family names some
member of that family's `sameType` list. -/
theorem innerLoop_trouble (tg : List MainGroup) (pt : String) (sameType : List ClassDescriptor) :
    ∀ (l : List ClassDescriptor) (checked : List String) (p : List String × String),
      p ∈ (innerLoop tg pt sameType l checked).2 →
      ∀ n ∈ p.1, ∃ d ∈ sameType, d.name = n := by
  intro l
  induction l with
  | nil => intro checked p hp; simp [innerLoop] at hp
  | cons cls rest ih =>
    intro checked p hp
    simp only [innerLoop] at hp
    by_cases hc : (checked.contains (cls.variants ++ cls.value)) = true
    · rw [if_pos hc] at hp
      exact ih _ p hp
    · rw [if_neg hc] at hp
      rcases List.mem_append.mp hp with hp | hp
      · unfold processKey at hp
        split_ifs at hp with k1 k2
        · simp at hp
        · intro n hn
          obtain ⟨d, hd, he⟩ := resolveSet_trouble tg pt _ cls p hp n hn
          exact ⟨d, mem_of_mem_svv hd, he⟩
        · simp at hp
      · exact ih _ p hp

/-- The passthrough sublist of the outer loop's output equals the
passthrough sublist of the descriptors it still has to visit. -/
theorem outerLoop_passthrough (tg : List MainGroup) (parsed : List ClassDescriptor) :
    ∀ (l : List ClassDescriptor) (checked : List String),
      (outerLoop tg parsed l checked).1.filter (fun d => d.parentType == "") =
        l.filter (fun d => d.parentType == "") := by
  intro l
  induction l with
  | nil => intro checked; rfl
  | cons c rest ih =>
    intro checked
    simp only [outerLoop]
    by_cases h0 : (c.parentType == "") = true
    · rw [if_pos h0]
      simp [List.filter_cons, h0, ih checked]
    · rw [if_neg h0]
      by_cases h1 : (checked.contains c.parentType) = true
      · rw [if_pos h1]
        simp [List.filter_cons, h0, ih checked]
      · rw [if_neg h1]
        have hg : (innerLoop tg c.parentType (sameTypeOf parsed c) (sameTypeOf parsed c) []).1.filter
            (fun d => d.parentType == "") = [] := by
          rw [List.filter_eq_nil_iff]
          intro d hd
          have hPT := innerLoop_mem tg c.parentType (sameTypeOf parsed c) c.parentType
            (fun x hx => (sameTypeOf_mem hx).2) _ [] (fun x hx => (sameTypeOf_mem hx).2) d hd
          simp only [hPT]
          exact h0
        rw [List.filter_append, hg, List.nil_append]
        simp [List.filter_cons, h0, ih]

/-- Every subsumed name recorded by the outer loop names some descriptor
of `parsed` whose family is non-empty. -/
theorem outerLoop_trouble (tg : List MainGroup) (parsed : List ClassDescriptor) :
    ∀ (l : List ClassDescriptor) (checked : List String) (p : List String × String),
      p ∈ (outerLoop tg parsed l checked).2 →
      ∀ n ∈ p.1, ∃ d, d ∈ parsed ∧ d.parentType ≠ "" ∧ d.name = n := by
  intro l
  induction l with
  | nil => intro checked p hp; simp [outerLoop] at hp
  | cons c rest ih =>
    intro checked p hp
    simp only [outerLoop] at hp
    by_cases h0 : (c.parentType == "") = true
    · rw [if_pos h0] at hp
      exact ih _ p hp
    · rw [if_neg h0] at hp
      by_cases h1 : (checked.contains c.parentType) = true
      · rw [if_pos h1] at hp
        exact ih _ p hp
      · rw [if_neg h1] at hp
        rcases List.mem_append.mp hp with hp | hp
        · intro n hn
          obtain ⟨d, hd, he⟩ :=
            innerLoop_trouble tg c.parentType (sameTypeOf parsed c) _ [] p hp n hn
          obtain ⟨hdp, hdt⟩ := sameTypeOf_mem hd
          refine ⟨d, hdp, ?_, he⟩
          rw [hdt]
          intro hcon
          rw [hcon] at h0
          simp at h0
        · exact ih _ p hp

/-- Claim C7: descriptors with empty `parentType` (line 196) pass through
unmodified and exactly once, in their original relative order among the
output's passthroughs, and never take part in any merge: every subsumed
name of every trouble comes from a descriptor with a non-empty family. -/
theorem passthrough_preserved (tg : List MainGroup) (parsed : List ClassDescriptor) :
    (processParsed tg parsed).1.filter (fun d => d.parentType == "") =
      parsed.filter (fun d => d.parentType == "") ∧
    ∀ p ∈ (processParsed tg parsed).2, ∀ n ∈ p.1,
      ∃ d, d ∈ parsed ∧ d.parentType ≠ "" ∧ d.name = n :=
  ⟨outerLoop_passthrough tg parsed parsed [],
   fun p hp => outerLoop_trouble tg parsed parsed [] p hp⟩

/-- Closed instance of the passthrough invariant on a concrete mixed
segment. -/
theorem passthrough_preserved_witness :
    (processParsed tgDemo (segmentDescriptors parseDemo ["foo", "mt-1", "mb-1"])).1.filter
        (fun d => d.parentType == "") =
      (segmentDescriptors parseDemo ["foo", "mt-1", "mb-1"]).filter
        (fun d => d.parentType == "") ∧
    ∃ d, d ∈ segmentDescriptors parseDemo ["foo", "mt-1", "mb-1"] ∧ d.parentType ≠ "" ∧
      d.name = "mt-1" :=
  ⟨(passthrough_preserved tgDemo (segmentDescriptors parseDemo ["foo", "mt-1", "mb-1"])).1,
   (passthrough_preserved tgDemo (segmentDescriptors parseDemo ["foo", "mt-1", "mb-1"])).2
     (["mt-1", "mb-1"], "my-1") (by decide) "mt-1" (by decide)⟩

/-- Every output of the axis branch carries the merged axis code or one of
the kept candidates' codes (and is then a set member). -/
theorem mergeAxis_code (tg : List MainGroup) (pt : String) (svv : List ClassDescriptor)
    (cls : ClassDescriptor) (hX hY : Bool) (d : ClassDescriptor)
    (hd : d ∈ (mergeAxis tg pt svv cls hX hY).1) :
    d.shorthand = (if hX then "x" else "y") ∨
    ((if hY then (["l", "r"] : List String) else ["t", "b"]).contains d.shorthand = true ∧
      d ∈ svv) := by
  simp only [mergeAxis, List.mem_cons, List.mem_map] at hd
  rcases hd with hd | ⟨c, hc, hcd⟩
  · left; rw [hd]
  · by_cases hidx : (c.index == cls.index) = true
    · rw [if_pos hidx] at hcd; left; rw [← hcd]
    · rw [if_neg hidx] at hcd
      obtain ⟨hcm, hcp⟩ := List.mem_filter.mp hc
      right; rw [← hcd]; exact ⟨hcp, hcm⟩

/-- Every output of the side branch carries the merged side code or one of
the kept candidates' codes (and is then a set member). -/
theorem mergeSide_code (tg : List MainGroup) (pt : String) (svv : List ClassDescriptor)
    (cls : ClassDescriptor) (hT hR hB : Bool) (d : ClassDescriptor)
    (hd : d ∈ (mergeSide tg pt svv cls hT hR hB).1) :
    d.shorthand = (if hT then "t" else if hR then "r" else if hB then "b" else "l") ∨
    ((if hT then (["bl", "br"] : List String)
      else if hR then ["tl", "bl"] else if hB then ["tl", "tr"] else ["tr", "br"]).contains
        d.shorthand = true ∧ d ∈ svv) := by
  simp only [mergeSide, List.mem_cons, List.mem_map] at hd
  rcases hd with hd | ⟨c, hc, hcd⟩
  · left; rw [hd]
  · by_cases hidx : (c.index == cls.index) = true
    · rw [if_pos hidx] at hcd; left; rw [← hcd]
    · rw [if_neg hidx] at hcd
      obtain ⟨hcm, hcp⟩ := List.mem_filter.mp hc
      right; rw [← hcd]; exact ⟨hcp, hcm⟩

/-- Every output of one key's processing shares the key descriptor's
`variants` and `value`. -/
theorem processKey_pair (tg : List MainGroup) (pt : String) (st : List ClassDescriptor)
    (cls d : ClassDescriptor) (hd : d ∈ (processKey tg pt st cls).1) :
    d.variants = cls.variants ∧ d.value = cls.value := by
  unfold processKey at hd
  split_ifs at hd with k1 k2
  · simp only [List.mem_singleton] at hd; rw [hd]; exact ⟨rfl, rfl⟩
  · rcases resolveSet_mem tg pt _ cls d hd with hm | hm
    · obtain ⟨-, hp⟩ := List.mem_filter.mp (show d ∈ List.filter _ st from hm)
      simp only [Bool.and_eq_true, beq_iff_eq] at hp
      exact hp
    · exact ⟨hm.2.1, hm.2.2⟩
  · simp at hd

/-- Once a key is recorded as checked, the inner loop never again emits a
descriptor with that key's `variants` and `value`. -/
theorem innerLoop_none (tg : List MainGroup) (pt : String) (st : List ClassDescriptor) :
    ∀ (l : List ClassDescriptor) (checked : List String) (cls2 : ClassDescriptor),
      checked.contains (cls2.variants ++ cls2.value) = true →
      sameVariantAndValueOf (innerLoop tg pt st l checked).1 cls2 = [] := by
  intro l
  induction l with
  | nil => intro checked cls2 h; rfl
  | cons cls rest ih =>
    intro checked cls2 h
    simp only [innerLoop]
    by_cases hc : (checked.contains (cls.variants ++ cls.value)) = true
    · rw [if_pos hc]; exact ih checked cls2 h
    · rw [if_neg hc]
      unfold sameVariantAndValueOf
      rw [List.filter_append]
      have h1 : (processKey tg pt st cls).1.filter
          (fun v => v.variants == cls2.variants && v.value == cls2.value) = [] := by
        rw [List.filter_eq_nil_iff]
        intro d hd
        obtain ⟨hv, hval⟩ := processKey_pair tg pt st cls d hd
        rw [hv, hval]
        intro hcon
        simp only [Bool.and_eq_true, beq_iff_eq] at hcon
        apply hc
        rw [hcon.1, hcon.2]
        exact h
      have h2 := ih (checked ++ [cls.variants ++ cls.value]) cls2 (by
        have hm : (cls2.variants ++ cls2.value) ∈ checked := List.elem_iff.mp h
        exact List.elem_iff.mpr (List.mem_append_left _ hm))
      unfold sameVariantAndValueOf at h2
      rw [h1, List.nil_append, h2]

/-- The descriptors of the inner loop's output sharing one `(variants,
value)` key form exactly one key's processing output (or there are
none). -/
theorem innerLoop_block (tg : List MainGroup) (pt : String) (st : List ClassDescriptor) :
    ∀ (l : List ClassDescriptor) (checked : List String) (cls2 : ClassDescriptor),
      sameVariantAndValueOf (innerLoop tg pt st l checked).1 cls2 = [] ∨
      ∃ cls1, sameVariantAndValueOf (innerLoop tg pt st l checked).1 cls2 =
        (processKey tg pt st cls1).1 := by
  intro l
  induction l with
  | nil => intro checked cls2; left; rfl
  | cons cls rest ih =>
    intro checked cls2
    simp only [innerLoop]
    by_cases hc : (checked.contains (cls.variants ++ cls.value)) = true
    · rw [if_pos hc]; exact ih checked cls2
    · rw [if_neg hc]
      unfold sameVariantAndValueOf
      rw [List.filter_append]
      by_cases hb : (cls.variants == cls2.variants && cls.value == cls2.value) = true
      · have h1 : (processKey tg pt st cls).1.filter
            (fun v => v.variants == cls2.variants && v.value == cls2.value) =
              (processKey tg pt st cls).1 := by
          rw [List.filter_eq_self]
          intro d hd
          obtain ⟨hv, hval⟩ := processKey_pair tg pt st cls d hd
          rw [hv, hval]
          exact hb
        have h2 := innerLoop_none tg pt st rest (checked ++ [cls.variants ++ cls.value]) cls2 (by
          simp only [Bool.and_eq_true, beq_iff_eq] at hb
          apply List.elem_iff.mpr
          apply List.mem_append_right
          rw [← hb.1, ← hb.2]
          exact List.mem_singleton.mpr rfl)
        unfold sameVariantAndValueOf at h2
        rw [h1, h2, List.append_nil]
        exact Or.inr ⟨cls, rfl⟩
      · have h1 : (processKey tg pt st cls).1.filter
            (fun v => v.variants == cls2.variants && v.value == cls2.value) = [] := by
          rw [List.filter_eq_nil_iff]
          intro d hd
          obtain ⟨hv, hval⟩ := processKey_pair tg pt st cls d hd
          rw [hv, hval]
          exact hb
        rcases ih (checked ++ [cls.variants ++ cls.value]) cls2 with h2 | ⟨cls1, h2⟩
        · unfold sameVariantAndValueOf at h2
          rw [h1, h2, List.nil_append]
          exact Or.inl rfl
        · unfold sameVariantAndValueOf at h2
          rw [h1, h2, List.nil_append]
          exact Or.inr ⟨cls1, rfl⟩

/-- Once a family is recorded as checked, the outer loop never again emits
a descriptor of that family. -/
theorem outerLoop_family_none (tg : List MainGroup) (parsed : List ClassDescriptor) :
    ∀ (l : List ClassDescriptor) (checked : List String) (c : ClassDescriptor),
      (c.parentType == "") = false →
      checked.contains c.parentType = true →
      sameTypeOf (outerLoop tg parsed l checked).1 c = [] := by
  intro l
  induction l with
  | nil => intro checked c h0 h1; rfl
  | cons a rest ih =>
    intro checked c h0 h1
    simp only [outerLoop]
    by_cases ha : (a.parentType == "") = true
    · rw [if_pos ha]
      have ha2 : a.parentType = "" := by simpa using ha
      have hc2 : c.parentType ≠ "" := by simpa using h0
      have hne : (a.parentType == c.parentType) = false := by
        simp only [beq_eq_false_iff_ne, ha2]
        exact fun hh => hc2 hh.symm
      have hrec := ih checked c h0 h1
      unfold sameTypeOf at hrec ⊢
      simp [List.filter_cons, hne, hrec]
    · rw [if_neg ha]
      by_cases hcont : (checked.contains a.parentType) = true
      · rw [if_pos hcont]; exact ih checked c h0 h1
      · rw [if_neg hcont]
        have hne : (a.parentType == c.parentType) = false := by
          rw [beq_eq_false_iff_ne]
          intro hh
          apply hcont
          rw [hh]; exact h1
        have hg : sameTypeOf
            (innerLoop tg a.parentType (sameTypeOf parsed a) (sameTypeOf parsed a) []).1 c = [] := by
          unfold sameTypeOf
          rw [List.filter_eq_nil_iff]
          intro d hd
          have hPT := innerLoop_mem tg a.parentType (sameTypeOf parsed a) a.parentType
            (fun x hx => (sameTypeOf_mem hx).2) _ [] (fun x hx => (sameTypeOf_mem hx).2) d hd
          rw [hPT, hne]
          simp
        have hrec := ih (checked ++ [a.parentType]) c h0
          (List.elem_iff.mpr (List.mem_append_left _ (List.elem_iff.mp h1)))
        unfold sameTypeOf at hg hrec ⊢
        rw [List.filter_append, hg, List.nil_append, hrec]

/-- The descriptors of the outer loop's output sharing one family and one
`(variants, value)` key are exactly one first-run key block (or there are
none). -/
theorem outerLoop_block (tg : List MainGroup) (parsed : List ClassDescriptor) :
    ∀ (l : List ClassDescriptor) (checked : List String) (c cls2 : ClassDescriptor),
      (c.parentType == "") = false →
      sameVariantAndValueOf (sameTypeOf (outerLoop tg parsed l checked).1 c) cls2 = [] ∨
      ∃ st cls1, sameVariantAndValueOf (sameTypeOf (outerLoop tg parsed l checked).1 c) cls2 =
        (processKey tg c.parentType st cls1).1 := by
  intro l
  induction l with
  | nil => intro checked c cls2 h0; left; rfl
  | cons a rest ih =>
    intro checked c cls2 h0
    simp only [outerLoop]
    by_cases ha : (a.parentType == "") = true
    · rw [if_pos ha]
      have ha2 : a.parentType = "" := by simpa using ha
      have hc2 : c.parentType ≠ "" := by simpa using h0
      have hne : (a.parentType == c.parentType) = false := by
        simp only [beq_eq_false_iff_ne, ha2]
        exact fun hh => hc2 hh.symm
      have hrec := ih checked c cls2 h0
      unfold sameTypeOf at hrec ⊢
      simpa [List.filter_cons, hne] using hrec
    · rw [if_neg ha]
      by_cases hcont : (checked.contains a.parentType) = true
      · rw [if_pos hcont]; exact ih checked c cls2 h0
      · rw [if_neg hcont]
        by_cases hfam : (a.parentType == c.parentType) = true
        · have hfam2 : a.parentType = c.parentType := by simpa using hfam
          have hg : sameTypeOf
              (innerLoop tg a.parentType (sameTypeOf parsed a) (sameTypeOf parsed a) []).1 c =
              (innerLoop tg a.parentType (sameTypeOf parsed a) (sameTypeOf parsed a) []).1 := by
            unfold sameTypeOf
            rw [List.filter_eq_self]
            intro d hd
            have hPT := innerLoop_mem tg a.parentType (sameTypeOf parsed a) a.parentType
              (fun x hx => (sameTypeOf_mem hx).2) _ [] (fun x hx => (sameTypeOf_mem hx).2) d hd
            rw [hPT]
            exact hfam
          have hrest := outerLoop_family_none tg parsed rest (checked ++ [a.parentType]) c h0
            (by
              apply List.elem_iff.mpr
              apply List.mem_append_right
              rw [← hfam2]
              exact List.mem_singleton.mpr rfl)
          unfold sameTypeOf at hg hrest ⊢
          rw [List.filter_append, hg, hrest, List.append_nil]
          rcases innerLoop_block tg a.parentType (sameTypeOf parsed a)
              (sameTypeOf parsed a) [] cls2 with hb0 | ⟨cls1, hb0⟩
          · exact Or.inl hb0
          · right
            refine ⟨sameTypeOf parsed a, cls1, ?_⟩
            rw [← hfam2]
            exact hb0
        · have hg : sameTypeOf
              (innerLoop tg a.parentType (sameTypeOf parsed a) (sameTypeOf parsed a) []).1 c = [] := by
            unfold sameTypeOf
            rw [List.filter_eq_nil_iff]
            intro d hd
            have hPT := innerLoop_mem tg a.parentType (sameTypeOf parsed a) a.parentType
              (fun x hx => (sameTypeOf_mem hx).2) _ [] (fun x hx => (sameTypeOf_mem hx).2) d hd
            rw [hPT]
            simp only [hfam]
            simp
          have hrec := ih (checked ++ [a.parentType]) c cls2 h0
          unfold sameTypeOf at hg hrec ⊢
          rw [List.filter_append, hg, List.nil_append]
          exact hrec

/-- Every trouble of the inner loop comes from some key's processing. -/
theorem innerLoop_trouble_src (tg : List MainGroup) (pt : String) (st : List ClassDescriptor) :
    ∀ (l : List ClassDescriptor) (checked : List String) (p : List String × String),
      p ∈ (innerLoop tg pt st l checked).2 →
      ∃ cls, p ∈ (processKey tg pt st cls).2 := by
  intro l
  induction l with
  | nil => intro checked p hp; simp [innerLoop] at hp
  | cons cls rest ih =>
    intro checked p hp
    simp only [innerLoop] at hp
    by_cases hc : (checked.contains (cls.variants ++ cls.value)) = true
    · rw [if_pos hc] at hp; exact ih _ p hp
    · rw [if_neg hc] at hp
      rcases List.mem_append.mp hp with hp | hp
      · exact ⟨cls, hp⟩
      · exact ih _ p hp

/-- Every trouble of the outer loop comes from some key's processing of
some non-passthrough family. -/
theorem outerLoop_trouble_src (tg : List MainGroup) (parsed : List ClassDescriptor) :
    ∀ (l : List ClassDescriptor) (checked : List String) (p : List String × String),
      p ∈ (outerLoop tg parsed l checked).2 →
      ∃ c cls, (c.parentType == "") = false ∧
        p ∈ (processKey tg c.parentType (sameTypeOf parsed c) cls).2 := by
  intro l
  induction l with
  | nil => intro checked p hp; simp [outerLoop] at hp
  | cons a rest ih =>
    intro checked p hp
    simp only [outerLoop] at hp
    by_cases ha : (a.parentType == "") = true
    · rw [if_pos ha] at hp; exact ih _ p hp
    · rw [if_neg ha] at hp
      by_cases hcont : (checked.contains a.parentType) = true
      · rw [if_pos hcont] at hp; exact ih _ p hp
      · rw [if_neg hcont] at hp
        rcases List.mem_append.mp hp with hp | hp
        · obtain ⟨cls, hcls⟩ := innerLoop_trouble_src tg a.parentType (sameTypeOf parsed a) _ [] p hp
          exact ⟨a, cls, by simpa using ha, hcls⟩
        · exact ih _ p hp

/-- When the set has no full coverage and each branch's replaced-candidates
filter is empty under the flags that fire it, the resolver only ever
records troubles with an empty subsumed list. -/
theorem stable_core (tg2 : List MainGroup) (pt : String) (O : List ClassDescriptor)
    (h1 : hasAllIn pt O = false)
    (h2 : hasXIn pt O = true →
      O.filter (fun c => (["l", "r"] : List String).contains c.shorthand) = [])
    (h3 : hasXIn pt O = false → hasYIn pt O = true →
      O.filter (fun c => (["t", "b"] : List String).contains c.shorthand) = [])
    (h4t : supportCornersOf pt = true → hasTIn pt O = true →
      O.filter (fun c => (["tl", "tr"] : List String).contains c.shorthand) = [])
    (h4r : supportCornersOf pt = true → hasTIn pt O = false → hasRIn pt O = true →
      O.filter (fun c => (["tr", "br"] : List String).contains c.shorthand) = [])
    (h4b : supportCornersOf pt = true → hasTIn pt O = false → hasRIn pt O = false →
      hasBIn pt O = true →
      O.filter (fun c => (["bl", "br"] : List String).contains c.shorthand) = [])
    (h4l : supportCornersOf pt = true → hasTIn pt O = false → hasRIn pt O = false →
      hasBIn pt O = false →
      O.filter (fun c => (["tl", "bl"] : List String).contains c.shorthand) = []) :
    ∀ (cls2 : ClassDescriptor) (p : List String × String),
      p ∈ (resolveSet tg2 pt O cls2).2 → p.1 = [] := by
  intro cls2 p hp
  unfold resolveSet at hp
  split_ifs at hp with hAll hAxis hSide
  · rw [h1] at hAll; cases hAll
  · simp only [mergeAxis, List.mem_singleton] at hp
    subst hp
    show List.map _ _ = []
    rw [List.map_eq_nil_iff, List.filter_eq_nil_iff]
    intro d hd
    by_cases hx : hasXIn pt O = true
    · have hfe := List.filter_eq_nil_iff.mp (h2 hx) d hd
      rw [hx]
      simpa using hfe
    · have hx2 : hasXIn pt O = false := by simpa using hx
      have hy : hasYIn pt O = true := by
        rcases Bool.or_eq_true_iff.mp hAxis with h | h
        · exact h
        · rw [hx2] at h; cases h
      have hfe := List.filter_eq_nil_iff.mp (h3 hx2 hy) d hd
      rw [hx2]
      simpa using hfe
  · simp only [mergeSide, List.mem_singleton] at hp
    subst hp
    show List.map _ _ = []
    rw [List.map_eq_nil_iff, List.filter_eq_nil_iff]
    intro d hd
    have hcorner : supportCornersOf pt = true := Bool.and_elim_left hSide
    by_cases ht : hasTIn pt O = true
    · have hfe := List.filter_eq_nil_iff.mp (h4t hcorner ht) d hd
      rw [ht]
      simpa using hfe
    · have ht2 : hasTIn pt O = false := by simpa using ht
      by_cases hr : hasRIn pt O = true
      · have hfe := List.filter_eq_nil_iff.mp (h4r hcorner ht2 hr) d hd
        rw [ht2, hr]
        simpa using hfe
      · have hr2 : hasRIn pt O = false := by simpa using hr
        by_cases hb : hasBIn pt O = true
        · have hfe := List.filter_eq_nil_iff.mp (h4b hcorner ht2 hr2 hb) d hd
          rw [ht2, hr2, hb]
          simpa using hfe
        · have hb2 : hasBIn pt O = false := by simpa using hb
          have hfe := List.filter_eq_nil_iff.mp (h4l hcorner ht2 hr2 hb2) d hd
          rw [ht2, hr2, hb2]
          simpa using hfe
  · simp at hp

/-- Output shape of a first-run x-axis merge: codes among x, t, b and not
both t and b present.  Such a list only ever yields empty-subsumed
troubles on re-analysis. -/
theorem axisX_shape_stable (tg2 : List MainGroup) (pt : String) (O : List ClassDescriptor)
    (hcodes : ∀ d ∈ O, d.shorthand = "x" ∨ d.shorthand = "t" ∨ d.shorthand = "b")
    (hnot : O.any (fun c => c.shorthand == "t") = false ∨
      O.any (fun c => c.shorthand == "b") = false) :
    ∀ (cls2 : ClassDescriptor) (p : List String × String),
      p ∈ (resolveSet tg2 pt O cls2).2 → p.1 = [] := by
  have hAall : O.any (fun c => c.shorthand == "all") = false := by
    rw [List.any_eq_false]; intro d hd
    rcases hcodes d hd with h | h | h <;> simp [h]
  have hAy : O.any (fun c => c.shorthand == "y") = false := by
    rw [List.any_eq_false]; intro d hd
    rcases hcodes d hd with h | h | h <;> simp [h]
  have hTB : (hasTIn pt O && hasBIn pt O) = false := by
    rcases hnot with hn | hn
    · have hCtl : O.any (fun c => (["tl", "t", "all"] : List String).contains c.shorthand) = false := by
        rw [List.any_eq_false]
        intro d hd
        rcases hcodes d hd with h | h | h
        · simp [h]
        · exfalso
          rw [List.any_eq_false] at hn
          exact hn d hd (by simp [h])
        · simp [h]
      have hT : hasTIn pt O = false := by
        unfold hasTIn hasTLIn
        rw [hn, hCtl]
        simp
      rw [hT]; simp
    · have hCbl : O.any (fun c => (["bl", "b", "all"] : List String).contains c.shorthand) = false := by
        rw [List.any_eq_false]
        intro d hd
        rcases hcodes d hd with h | h | h
        · simp [h]
        · simp [h]
        · exfalso
          rw [List.any_eq_false] at hn
          exact hn d hd (by simp [h])
      have hB : hasBIn pt O = false := by
        unfold hasBIn hasBLIn
        rw [hn, hCbl]
        simp
      rw [hB]; simp
  have hYv : hasYIn pt O = false := by
    unfold hasYIn
    rw [hAy, hTB]
    simp
  have h1v : hasAllIn pt O = false := by
    unfold hasAllIn
    rw [hAall, hYv]
    simp
  apply stable_core tg2 pt O h1v
  · intro _
    rw [List.filter_eq_nil_iff]; intro d hd
    rcases hcodes d hd with h | h | h <;> simp [h]
  · intro _ hy
    rw [hYv] at hy; cases hy
  · intro _ _
    rw [List.filter_eq_nil_iff]; intro d hd
    rcases hcodes d hd with h | h | h <;> simp [h]
  · intro _ _ _
    rw [List.filter_eq_nil_iff]; intro d hd
    rcases hcodes d hd with h | h | h <;> simp [h]
  · intro _ _ _ _
    rw [List.filter_eq_nil_iff]; intro d hd
    rcases hcodes d hd with h | h | h <;> simp [h]
  · intro _ _ _ _
    rw [List.filter_eq_nil_iff]; intro d hd
    rcases hcodes d hd with h | h | h <;> simp [h]

/-- Output shape of a first-run y-axis merge: codes among y, l, r and not
both l and r present.  Such a list only ever yields empty-subsumed
troubles on re-analysis. -/
theorem axisY_shape_stable (tg2 : List MainGroup) (pt : String) (O : List ClassDescriptor)
    (hcodes : ∀ d ∈ O, d.shorthand = "y" ∨ d.shorthand = "l" ∨ d.shorthand = "r")
    (hnot : O.any (fun c => c.shorthand == "l") = false ∨
      O.any (fun c => c.shorthand == "r") = false) :
    ∀ (cls2 : ClassDescriptor) (p : List String × String),
      p ∈ (resolveSet tg2 pt O cls2).2 → p.1 = [] := by
  have hAall : O.any (fun c => c.shorthand == "all") = false := by
    rw [List.any_eq_false]; intro d hd; rcases hcodes d hd with h | h | h <;> simp [h]
  have hAx : O.any (fun c => c.shorthand == "x") = false := by
    rw [List.any_eq_false]; intro d hd; rcases hcodes d hd with h | h | h <;> simp [h]
  have hCtl : O.any (fun c => (["tl", "t", "all"] : List String).contains c.shorthand) = false := by
    rw [List.any_eq_false]; intro d hd; rcases hcodes d hd with h | h | h <;> simp [h]
  have hCtr : O.any (fun c => (["tr", "t", "all"] : List String).contains c.shorthand) = false := by
    rw [List.any_eq_false]; intro d hd; rcases hcodes d hd with h | h | h <;> simp [h]
  have hLR : (hasLIn pt O && hasRIn pt O) = false := by
    rcases hnot with hn | hn
    · have hL : hasLIn pt O = false := by
        unfold hasLIn hasTLIn
        rw [hn, hCtl]
        simp
      rw [hL]; simp
    · have hR : hasRIn pt O = false := by
        unfold hasRIn hasTRIn
        rw [hn, hCtr]
        simp
      rw [hR]; simp
  have hXv : hasXIn pt O = false := by
    unfold hasXIn
    rw [hAx, hLR]
    simp
  have h1v : hasAllIn pt O = false := by
    unfold hasAllIn
    rw [hAall, hXv]
    simp
  apply stable_core tg2 pt O h1v
  · intro hx
    rw [hXv] at hx; cases hx
  · intro _ _
    rw [List.filter_eq_nil_iff]; intro d hd
    rcases hcodes d hd with h | h | h <;> simp [h]
  · intro _ _
    rw [List.filter_eq_nil_iff]; intro d hd
    rcases hcodes d hd with h | h | h <;> simp [h]
  · intro _ _ _
    rw [List.filter_eq_nil_iff]; intro d hd
    rcases hcodes d hd with h | h | h <;> simp [h]
  · intro _ _ _ _
    rw [List.filter_eq_nil_iff]; intro d hd
    rcases hcodes d hd with h | h | h <;> simp [h]
  · intro _ _ _ _
    rw [List.filter_eq_nil_iff]; intro d hd
    rcases hcodes d hd with h | h | h <;> simp [h]

/-- Output shape of a first-run top-side merge: codes among t, bl, br, a t
descriptor present, and not both bl and br present. -/
theorem sideT_shape_stable (tg2 : List MainGroup) (pt : String) (O : List ClassDescriptor)
    (hcodes : ∀ d ∈ O, d.shorthand = "t" ∨ d.shorthand = "bl" ∨ d.shorthand = "br")
    (hhead : O.any (fun c => c.shorthand == "t") = true)
    (hnot : O.any (fun c => c.shorthand == "bl") = false ∨
      O.any (fun c => c.shorthand == "br") = false) :
    ∀ (cls2 : ClassDescriptor) (p : List String × String),
      p ∈ (resolveSet tg2 pt O cls2).2 → p.1 = [] := by
  have hAall : O.any (fun c => c.shorthand == "all") = false := by
    rw [List.any_eq_false]; intro d hd; rcases hcodes d hd with h | h | h <;> simp [h]
  have hAy : O.any (fun c => c.shorthand == "y") = false := by
    rw [List.any_eq_false]; intro d hd; rcases hcodes d hd with h | h | h <;> simp [h]
  have hAx : O.any (fun c => c.shorthand == "x") = false := by
    rw [List.any_eq_false]; intro d hd; rcases hcodes d hd with h | h | h <;> simp [h]
  have hAl : O.any (fun c => c.shorthand == "l") = false := by
    rw [List.any_eq_false]; intro d hd; rcases hcodes d hd with h | h | h <;> simp [h]
  have hAr : O.any (fun c => c.shorthand == "r") = false := by
    rw [List.any_eq_false]; intro d hd; rcases hcodes d hd with h | h | h <;> simp [h]
  have hAb : O.any (fun c => c.shorthand == "b") = false := by
    rw [List.any_eq_false]; intro d hd; rcases hcodes d hd with h | h | h <;> simp [h]
  have hBLBR : (hasBLIn pt O && hasBRIn pt O) = false := by
    rcases hnot with hn | hn
    · have hCbl : O.any (fun c => (["bl", "b", "all"] : List String).contains c.shorthand) = false := by
        rw [List.any_eq_false]; intro d hd
        rcases hcodes d hd with h | h | h
        · simp [h]
        · exfalso
          rw [List.any_eq_false] at hn
          exact hn d hd (by simp [h])
        · simp [h]
      unfold hasBLIn
      rw [hCbl]
      simp
    · have hCbr : O.any (fun c => (["br", "b", "all"] : List String).contains c.shorthand) = false := by
        rw [List.any_eq_false]; intro d hd
        rcases hcodes d hd with h | h | h
        · simp [h]
        · simp [h]
        · exfalso
          rw [List.any_eq_false] at hn
          exact hn d hd (by simp [h])
      unfold hasBRIn
      rw [hCbr]
      simp
  have hBv : hasBIn pt O = false := by
    unfold hasBIn
    rw [hAb]
    have : (hasBLIn pt O && hasBRIn pt O) = false := hBLBR
    rw [this]
    simp
  have hTv : hasTIn pt O = true := by
    unfold hasTIn
    rw [hhead]
    simp
  have hYv : hasYIn pt O = false := by
    unfold hasYIn
    rw [hAy, hBv]
    simp
  have hLRv : (hasLIn pt O && hasRIn pt O) = false := by
    rcases hnot with hn | hn
    · have hCbl : O.any (fun c => (["bl", "b", "all"] : List String).contains c.shorthand) = false := by
        rw [List.any_eq_false]; intro d hd
        rcases hcodes d hd with h | h | h
        · simp [h]
        · exfalso
          rw [List.any_eq_false] at hn
          exact hn d hd (by simp [h])
        · simp [h]
      have hL : hasLIn pt O = false := by
        unfold hasLIn hasBLIn
        rw [hAl, hCbl]
        simp
      rw [hL]; simp
    · have hCbr : O.any (fun c => (["br", "b", "all"] : List String).contains c.shorthand) = false := by
        rw [List.any_eq_false]; intro d hd
        rcases hcodes d hd with h | h | h
        · simp [h]
        · simp [h]
        · exfalso
          rw [List.any_eq_false] at hn
          exact hn d hd (by simp [h])
      have hR : hasRIn pt O = false := by
        unfold hasRIn hasBRIn
        rw [hAr, hCbr]
        simp
      rw [hR]; simp
  have hXv : hasXIn pt O = false := by
    unfold hasXIn
    rw [hAx, hLRv]
    simp
  have h1v : hasAllIn pt O = false := by
    unfold hasAllIn
    rw [hAall, hYv]
    simp
  apply stable_core tg2 pt O h1v
  · intro hx
    rw [hXv] at hx; cases hx
  · intro _ hy
    rw [hYv] at hy; cases hy
  · intro _ _
    rw [List.filter_eq_nil_iff]; intro d hd
    rcases hcodes d hd with h | h | h <;> simp [h]
  · intro _ hT _
    rw [hTv] at hT; cases hT
  · intro _ hT _ _
    rw [hTv] at hT; cases hT
  · intro _ hT _ _
    rw [hTv] at hT; cases hT

/-- Output shape of a first-run right-side merge: codes among r, tl, bl,
an r descriptor present, and not both tl and bl present. -/
theorem sideR_shape_stable (tg2 : List MainGroup) (pt : String) (O : List ClassDescriptor)
    (hcodes : ∀ d ∈ O, d.shorthand = "r" ∨ d.shorthand = "tl" ∨ d.shorthand = "bl")
    (hhead : O.any (fun c => c.shorthand == "r") = true)
    (hnot : O.any (fun c => c.shorthand == "tl") = false ∨
      O.any (fun c => c.shorthand == "bl") = false) :
    ∀ (cls2 : ClassDescriptor) (p : List String × String),
      p ∈ (resolveSet tg2 pt O cls2).2 → p.1 = [] := by
  have hAall : O.any (fun c => c.shorthand == "all") = false := by
    rw [List.any_eq_false]; intro d hd; rcases hcodes d hd with h | h | h <;> simp [h]
  have hAy : O.any (fun c => c.shorthand == "y") = false := by
    rw [List.any_eq_false]; intro d hd; rcases hcodes d hd with h | h | h <;> simp [h]
  have hAx : O.any (fun c => c.shorthand == "x") = false := by
    rw [List.any_eq_false]; intro d hd; rcases hcodes d hd with h | h | h <;> simp [h]
  have hAl : O.any (fun c => c.shorthand == "l") = false := by
    rw [List.any_eq_false]; intro d hd; rcases hcodes d hd with h | h | h <;> simp [h]
  have hAt : O.any (fun c => c.shorthand == "t") = false := by
    rw [List.any_eq_false]; intro d hd; rcases hcodes d hd with h | h | h <;> simp [h]
  have hAb : O.any (fun c => c.shorthand == "b") = false := by
    rw [List.any_eq_false]; intro d hd; rcases hcodes d hd with h | h | h <;> simp [h]
  have hCtr : O.any (fun c => (["tr", "t", "all"] : List String).contains c.shorthand) = false := by
    rw [List.any_eq_false]; intro d hd; rcases hcodes d hd with h | h | h <;> simp [h]
  have hCbr : O.any (fun c => (["br", "b", "all"] : List String).contains c.shorthand) = false := by
    rw [List.any_eq_false]; intro d hd; rcases hcodes d hd with h | h | h <;> simp [h]
  have hTv : hasTIn pt O = false := by
    unfold hasTIn hasTRIn
    rw [hAt, hCtr]
    simp
  have hBv : hasBIn pt O = false := by
    unfold hasBIn hasBRIn
    rw [hAb, hCbr]
    simp
  have hRv : hasRIn pt O = true := by
    unfold hasRIn
    rw [hhead]
    simp
  have hLv : hasLIn pt O = false := by
    rcases hnot with hn | hn
    · have hCtl : O.any (fun c => (["tl", "t", "all"] : List String).contains c.shorthand) = false := by
        rw [List.any_eq_false]; intro d hd
        rcases hcodes d hd with h | h | h
        · simp [h]
        · exfalso
          rw [List.any_eq_false] at hn
          exact hn d hd (by simp [h])
        · simp [h]
      unfold hasLIn hasTLIn
      rw [hAl, hCtl]
      simp
    · have hCbl : O.any (fun c => (["bl", "b", "all"] : List String).contains c.shorthand) = false := by
        rw [List.any_eq_false]; intro d hd
        rcases hcodes d hd with h | h | h
        · simp [h]
        · simp [h]
        · exfalso
          rw [List.any_eq_false] at hn
          exact hn d hd (by simp [h])
      unfold hasLIn hasBLIn
      rw [hAl, hCbl]
      simp
  have hXv : hasXIn pt O = false := by
    unfold hasXIn
    rw [hAx, hLv]
    simp
  have hYv : hasYIn pt O = false := by
    unfold hasYIn
    rw [hAy, hTv]
    simp
  have h1v : hasAllIn pt O = false := by
    unfold hasAllIn
    rw [hAall, hYv]
    simp
  apply stable_core tg2 pt O h1v
  · intro hx
    rw [hXv] at hx; cases hx
  · intro _ hy
    rw [hYv] at hy; cases hy
  · intro _ hT
    rw [hTv] at hT; cases hT
  · intro _ _ _
    rw [List.filter_eq_nil_iff]; intro d hd
    rcases hcodes d hd with h | h | h <;> simp [h]
  · intro _ _ hR _
    rw [hRv] at hR; cases hR
  · intro _ _ hR _
    rw [hRv] at hR; cases hR

/-- Output shape of a first-run bottom-side merge: codes among b and tl
only (a tr kept corner is unreachable under the priority), with a b
descriptor present. -/
theorem sideB_shape_stable (tg2 : List MainGroup) (pt : String) (O : List ClassDescriptor)
    (hcodes : ∀ d ∈ O, d.shorthand = "b" ∨ d.shorthand = "tl")
    (hhead : O.any (fun c => c.shorthand == "b") = true) :
    ∀ (cls2 : ClassDescriptor) (p : List String × String),
      p ∈ (resolveSet tg2 pt O cls2).2 → p.1 = [] := by
  have hAall : O.any (fun c => c.shorthand == "all") = false := by
    rw [List.any_eq_false]; intro d hd; rcases hcodes d hd with h | h <;> simp [h]
  have hAy : O.any (fun c => c.shorthand == "y") = false := by
    rw [List.any_eq_false]; intro d hd; rcases hcodes d hd with h | h <;> simp [h]
  have hAx : O.any (fun c => c.shorthand == "x") = false := by
    rw [List.any_eq_false]; intro d hd; rcases hcodes d hd with h | h <;> simp [h]
  have hAt : O.any (fun c => c.shorthand == "t") = false := by
    rw [List.any_eq_false]; intro d hd; rcases hcodes d hd with h | h <;> simp [h]
  have hAr : O.any (fun c => c.shorthand == "r") = false := by
    rw [List.any_eq_false]; intro d hd; rcases hcodes d hd with h | h <;> simp [h]
  have hCtr : O.any (fun c => (["tr", "t", "all"] : List String).contains c.shorthand) = false := by
    rw [List.any_eq_false]; intro d hd; rcases hcodes d hd with h | h <;> simp [h]
  have hTv : hasTIn pt O = false := by
    unfold hasTIn hasTRIn
    rw [hAt, hCtr]
    simp
  have hRv : hasRIn pt O = false := by
    unfold hasRIn hasTRIn
    rw [hAr, hCtr]
    simp
  have hBv : hasBIn pt O = true := by
    unfold hasBIn
    rw [hhead]
    simp
  have hYv : hasYIn pt O = false := by
    unfold hasYIn
    rw [hAy, hTv]
    simp
  have hXv : hasXIn pt O = false := by
    unfold hasXIn
    rw [hAx, hRv]
    simp
  have h1v : hasAllIn pt O = false := by
    unfold hasAllIn
    rw [hAall, hYv]
    simp
  apply stable_core tg2 pt O h1v
  · intro hx
    rw [hXv] at hx; cases hx
  · intro _ hy
    rw [hYv] at hy; cases hy
  · intro _ hT
    rw [hTv] at hT; cases hT
  · intro _ _ hR
    rw [hRv] at hR; cases hR
  · intro _ _ _ _
    rw [List.filter_eq_nil_iff]; intro d hd
    rcases hcodes d hd with h | h <;> simp [h]
  · intro _ _ _ hB
    rw [hBv] at hB; cases hB

/-- Output shape of a first-run left-side merge: codes among l, tr, br, an
l descriptor present, and not both tr and br present. -/
theorem sideL_shape_stable (tg2 : List MainGroup) (pt : String) (O : List ClassDescriptor)
    (hcodes : ∀ d ∈ O, d.shorthand = "l" ∨ d.shorthand = "tr" ∨ d.shorthand = "br")
    (hnot : O.any (fun c => c.shorthand == "tr") = false ∨
      O.any (fun c => c.shorthand == "br") = false) :
    ∀ (cls2 : ClassDescriptor) (p : List String × String),
      p ∈ (resolveSet tg2 pt O cls2).2 → p.1 = [] := by
  have hAall : O.any (fun c => c.shorthand == "all") = false := by
    rw [List.any_eq_false]; intro d hd; rcases hcodes d hd with h | h | h <;> simp [h]
  have hAy : O.any (fun c => c.shorthand == "y") = false := by
    rw [List.any_eq_false]; intro d hd; rcases hcodes d hd with h | h | h <;> simp [h]
  have hAx : O.any (fun c => c.shorthand == "x") = false := by
    rw [List.any_eq_false]; intro d hd; rcases hcodes d hd with h | h | h <;> simp [h]
  have hAt : O.any (fun c => c.shorthand == "t") = false := by
    rw [List.any_eq_false]; intro d hd; rcases hcodes d hd with h | h | h <;> simp [h]
  have hAr : O.any (fun c => c.shorthand == "r") = false := by
    rw [List.any_eq_false]; intro d hd; rcases hcodes d hd with h | h | h <;> simp [h]
  have hAb : O.any (fun c => c.shorthand == "b") = false := by
    rw [List.any_eq_false]; intro d hd; rcases hcodes d hd with h | h | h <;> simp [h]
  have hCtl : O.any (fun c => (["tl", "t", "all"] : List String).contains c.shorthand) = false := by
    rw [List.any_eq_false]; intro d hd; rcases hcodes d hd with h | h | h <;> simp [h]
  have hCbl : O.any (fun c => (["bl", "b", "all"] : List String).contains c.shorthand) = false := by
    rw [List.any_eq_false]; intro d hd; rcases hcodes d hd with h | h | h <;> simp [h]
  have hTv : hasTIn pt O = false := by
    unfold hasTIn hasTLIn
    rw [hAt, hCtl]
    simp
  have hBv : hasBIn pt O = false := by
    unfold hasBIn hasBLIn
    rw [hAb, hCbl]
    simp
  have hRv : hasRIn pt O = false := by
    rcases hnot with hn | hn
    · have hCtr : O.any (fun c => (["tr", "t", "all"] : List String).contains c.shorthand) = false := by
        rw [List.any_eq_false]; intro d hd
        rcases hcodes d hd with h | h | h
        · simp [h]
        · exfalso
          rw [List.any_eq_false] at hn
          exact hn d hd (by simp [h])
        · simp [h]
      unfold hasRIn hasTRIn
      rw [hAr, hCtr]
      simp
    · have hCbr : O.any (fun c => (["br", "b", "all"] : List String).contains c.shorthand) = false := by
        rw [List.any_eq_false]; intro d hd
        rcases hcodes d hd with h | h | h
        · simp [h]
        · simp [h]
        · exfalso
          rw [List.any_eq_false] at hn
          exact hn d hd (by simp [h])
      unfold hasRIn hasBRIn
      rw [hAr, hCbr]
      simp
  have hYv : hasYIn pt O = false := by
    unfold hasYIn
    rw [hAy, hTv]
    simp
  have hXv : hasXIn pt O = false := by
    unfold hasXIn
    rw [hAx, hRv]
    simp
  have h1v : hasAllIn pt O = false := by
    unfold hasAllIn
    rw [hAall, hYv]
    simp
  apply stable_core tg2 pt O h1v
  · intro hx
    rw [hXv] at hx; cases hx
  · intro _ hy
    rw [hYv] at hy; cases hy
  · intro _ hT
    rw [hTv] at hT; cases hT
  · intro _ _ hR
    rw [hRv] at hR; cases hR
  · intro _ _ _ hB
    rw [hBv] at hB; cases hB
  · intro _ _ _ _
    rw [List.filter_eq_nil_iff]; intro d hd
    rcases hcodes d hd with h | h | h <;> simp [h]

/-- A no-merge set keeps its flags, so re-analysis again records no
trouble at all. -/
theorem else_shape_stable (tg2 : List MainGroup) (pt : String) (O : List ClassDescriptor)
    (hall : hasAllIn pt O = false) (hax : (hasYIn pt O || hasXIn pt O) = false)
    (hside : (supportCornersOf pt &&
      (hasTIn pt O || hasRIn pt O || hasBIn pt O || hasLIn pt O)) = false) :
    ∀ (cls2 : ClassDescriptor) (p : List String × String),
      p ∈ (resolveSet tg2 pt O cls2).2 → p.1 = [] := by
  intro cls2 p hp
  unfold resolveSet at hp
  split_ifs at hp with hAll hAxis hSide
  · rw [hall] at hAll; cases hAll
  · rw [hax] at hAxis; cases hAxis
  · rw [hside] at hSide; cases hSide
  · simp at hp

/-- The side branch's first output is the representative carrying the
merged side code. -/
theorem mergeSide_head (tg : List MainGroup) (pt : String) (svv : List ClassDescriptor)
    (cls : ClassDescriptor) (hT hR hB : Bool) :
    ∃ d ∈ (mergeSide tg pt svv cls hT hR hB).1,
      d.shorthand = (if hT then "t" else if hR then "r" else if hB then "b" else "l") := by
  simp only [mergeSide]
  exact ⟨_, List.mem_cons_self _ _, rfl⟩

/-- The output of a first-run axis merge only ever yields empty-subsumed
troubles on re-analysis, for any taxonomy. -/
theorem mergeAxis_block_stable (tg tg2 : List MainGroup) (pt : String)
    (svv : List ClassDescriptor) (cls : ClassDescriptor)
    (hall : hasAllIn pt svv = false) (haxis : (hasYIn pt svv || hasXIn pt svv) = true) :
    ∀ (cls2 : ClassDescriptor) (p : List String × String),
      p ∈ (resolveSet tg2 pt
        ((mergeAxis tg pt svv cls (hasXIn pt svv) (hasYIn pt svv)).1) cls2).2 → p.1 = [] := by
  by_cases hx : hasXIn pt svv = true
  · have hy1 : hasYIn pt svv = false := by
      have h2 := (Bool.or_eq_false_iff.mp (by unfold hasAllIn at hall; exact hall)).2
      rw [hx, Bool.and_true] at h2
      exact h2
    apply axisX_shape_stable
    · intro d hd
      rcases mergeAxis_code tg pt svv cls _ _ d hd with hc | ⟨hcont, -⟩
      · rw [hx] at hc
        simp only [if_pos rfl] at hc
        exact Or.inl hc
      · rw [hy1] at hcont
        simp at hcont
        exact Or.inr hcont
    · cases hat : (mergeAxis tg pt svv cls (hasXIn pt svv) (hasYIn pt svv)).1.any
          (fun c => c.shorthand == "t") with
      | false => exact Or.inl rfl
      | true =>
        right
        cases hab : (mergeAxis tg pt svv cls (hasXIn pt svv) (hasYIn pt svv)).1.any
            (fun c => c.shorthand == "b") with
        | false => exact rfl
        | true =>
          exfalso
          obtain ⟨dt, hdt, hdt2⟩ := List.any_eq_true.mp hat
          obtain ⟨db, hdb, hdb2⟩ := List.any_eq_true.mp hab
          have hdtc : dt.shorthand = "t" := by simpa using hdt2
          have hdbc : db.shorthand = "b" := by simpa using hdb2
          have hmt : dt ∈ svv := by
            rcases mergeAxis_code tg pt svv cls _ _ dt hdt with hc | ⟨-, hm⟩
            · rw [hx] at hc; simp only [if_pos rfl] at hc; rw [hdtc] at hc; simp at hc
            · exact hm
          have hmb : db ∈ svv := by
            rcases mergeAxis_code tg pt svv cls _ _ db hdb with hc | ⟨-, hm⟩
            · rw [hx] at hc; simp only [if_pos rfl] at hc; rw [hdbc] at hc; simp at hc
            · exact hm
          have hT1 : hasTIn pt svv = true := by
            unfold hasTIn
            rw [List.any_eq_true.mpr ⟨dt, hmt, by rw [hdtc]; rfl⟩]
            simp
          have hB1 : hasBIn pt svv = true := by
            unfold hasBIn
            rw [List.any_eq_true.mpr ⟨db, hmb, by rw [hdbc]; rfl⟩]
            simp
          have : hasYIn pt svv = true := by
            unfold hasYIn
            rw [hT1, hB1]
            simp
          rw [hy1] at this
          cases this
  · have hx2 : hasXIn pt svv = false := by simpa using hx
    have hy : hasYIn pt svv = true := by
      rcases Bool.or_eq_true_iff.mp haxis with h | h
      · exact h
      · rw [hx2] at h; cases h
    apply axisY_shape_stable
    · intro d hd
      rcases mergeAxis_code tg pt svv cls _ _ d hd with hc | ⟨hcont, -⟩
      · rw [hx2] at hc
        simp at hc
        exact Or.inl hc
      · rw [hy] at hcont
        simp at hcont
        exact Or.inr hcont
    · cases hal : (mergeAxis tg pt svv cls (hasXIn pt svv) (hasYIn pt svv)).1.any
          (fun c => c.shorthand == "l") with
      | false => exact Or.inl rfl
      | true =>
        right
        cases har : (mergeAxis tg pt svv cls (hasXIn pt svv) (hasYIn pt svv)).1.any
            (fun c => c.shorthand == "r") with
        | false => exact rfl
        | true =>
          exfalso
          obtain ⟨dl, hdl, hdl2⟩ := List.any_eq_true.mp hal
          obtain ⟨dr, hdr, hdr2⟩ := List.any_eq_true.mp har
          have hdlc : dl.shorthand = "l" := by simpa using hdl2
          have hdrc : dr.shorthand = "r" := by simpa using hdr2
          have hml : dl ∈ svv := by
            rcases mergeAxis_code tg pt svv cls _ _ dl hdl with hc | ⟨-, hm⟩
            · rw [hx2] at hc; simp at hc; rw [hdlc] at hc; simp at hc
            · exact hm
          have hmr : dr ∈ svv := by
            rcases mergeAxis_code tg pt svv cls _ _ dr hdr with hc | ⟨-, hm⟩
            · rw [hx2] at hc; simp at hc; rw [hdrc] at hc; simp at hc
            · exact hm
          have hL1 : hasLIn pt svv = true := by
            unfold hasLIn
            rw [List.any_eq_true.mpr ⟨dl, hml, by rw [hdlc]; rfl⟩]
            simp
          have hR1 : hasRIn pt svv = true := by
            unfold hasRIn
            rw [List.any_eq_true.mpr ⟨dr, hmr, by rw [hdrc]; rfl⟩]
            simp
          have : hasXIn pt svv = true := by
            unfold hasXIn
            rw [hL1, hR1]
            simp
          rw [hx2] at this
          cases this

/-- The output of a first-run corner-side merge only ever yields
empty-subsumed troubles on re-analysis, for any taxonomy. -/
theorem mergeSide_block_stable (tg tg2 : List MainGroup) (pt : String)
    (svv : List ClassDescriptor) (cls : ClassDescriptor)
    (haxis : (hasYIn pt svv || hasXIn pt svv) = false)
    (hside : (supportCornersOf pt &&
      (hasTIn pt svv || hasRIn pt svv || hasBIn pt svv || hasLIn pt svv)) = true) :
    ∀ (cls2 : ClassDescriptor) (p : List String × String),
      p ∈ (resolveSet tg2 pt
        ((mergeSide tg pt svv cls (hasTIn pt svv) (hasRIn pt svv) (hasBIn pt svv)).1) cls2).2 →
      p.1 = [] := by
  have hcorner : supportCornersOf pt = true := Bool.and_elim_left hside
  obtain ⟨hy1, hx1⟩ := Bool.or_eq_false_iff.mp haxis
  by_cases ht : hasTIn pt svv = true
  · apply sideT_shape_stable
    · intro d hd
      rcases mergeSide_code tg pt svv cls _ _ _ d hd with hc | ⟨hcont, -⟩
      · rw [ht] at hc; simp at hc; exact Or.inl hc
      · rw [ht] at hcont; simp at hcont; exact Or.inr hcont
    · obtain ⟨d, hd, hdc⟩ := mergeSide_head tg pt svv cls (hasTIn pt svv) (hasRIn pt svv) (hasBIn pt svv)
      rw [ht] at hdc; simp at hdc
      exact List.any_eq_true.mpr ⟨d, hd, by rw [hdc]; rfl⟩
    · cases hbl : (mergeSide tg pt svv cls (hasTIn pt svv) (hasRIn pt svv) (hasBIn pt svv)).1.any
          (fun c => c.shorthand == "bl") with
      | false => exact Or.inl rfl
      | true =>
        right
        cases hbr : (mergeSide tg pt svv cls (hasTIn pt svv) (hasRIn pt svv) (hasBIn pt svv)).1.any
            (fun c => c.shorthand == "br") with
        | false => exact rfl
        | true =>
          exfalso
          obtain ⟨d1, hd1, hd1c⟩ := List.any_eq_true.mp hbl
          obtain ⟨d2, hd2, hd2c⟩ := List.any_eq_true.mp hbr
          have hc1 : d1.shorthand = "bl" := by simpa using hd1c
          have hc2 : d2.shorthand = "br" := by simpa using hd2c
          have hm1 : d1 ∈ svv := by
            rcases mergeSide_code tg pt svv cls _ _ _ d1 hd1 with hc | ⟨-, hm⟩
            · rw [ht] at hc; simp at hc; rw [hc1] at hc; simp at hc
            · exact hm
          have hm2 : d2 ∈ svv := by
            rcases mergeSide_code tg pt svv cls _ _ _ d2 hd2 with hc | ⟨-, hm⟩
            · rw [ht] at hc; simp at hc; rw [hc2] at hc; simp at hc
            · exact hm
          have hBL1 : hasBLIn pt svv = true := by
            unfold hasBLIn
            rw [hcorner, List.any_eq_true.mpr ⟨d1, hm1, by rw [hc1]; rfl⟩]
            rfl
          have hBR1 : hasBRIn pt svv = true := by
            unfold hasBRIn
            rw [hcorner, List.any_eq_true.mpr ⟨d2, hm2, by rw [hc2]; rfl⟩]
            rfl
          have hB1 : hasBIn pt svv = true := by
            unfold hasBIn
            rw [hBL1, hBR1]
            simp
          have : hasYIn pt svv = true := by
            unfold hasYIn
            rw [ht, hB1]
            simp
          rw [hy1] at this
          cases this
  · have ht2 : hasTIn pt svv = false := by simpa using ht
    by_cases hr : hasRIn pt svv = true
    · apply sideR_shape_stable
      · intro d hd
        rcases mergeSide_code tg pt svv cls _ _ _ d hd with hc | ⟨hcont, -⟩
        · rw [ht2, hr] at hc; simp at hc; exact Or.inl hc
        · rw [ht2, hr] at hcont; simp at hcont; exact Or.inr hcont
      · obtain ⟨d, hd, hdc⟩ := mergeSide_head tg pt svv cls (hasTIn pt svv) (hasRIn pt svv) (hasBIn pt svv)
        rw [ht2, hr] at hdc; simp at hdc
        exact List.any_eq_true.mpr ⟨d, hd, by rw [hdc]; rfl⟩
      · cases htl : (mergeSide tg pt svv cls (hasTIn pt svv) (hasRIn pt svv) (hasBIn pt svv)).1.any
            (fun c => c.shorthand == "tl") with
        | false => exact Or.inl rfl
        | true =>
          right
          cases hbl : (mergeSide tg pt svv cls (hasTIn pt svv) (hasRIn pt svv) (hasBIn pt svv)).1.any
              (fun c => c.shorthand == "bl") with
          | false => exact rfl
          | true =>
            exfalso
            obtain ⟨d1, hd1, hd1c⟩ := List.any_eq_true.mp htl
            obtain ⟨d2, hd2, hd2c⟩ := List.any_eq_true.mp hbl
            have hc1 : d1.shorthand = "tl" := by simpa using hd1c
            have hc2 : d2.shorthand = "bl" := by simpa using hd2c
            have hm1 : d1 ∈ svv := by
              rcases mergeSide_code tg pt svv cls _ _ _ d1 hd1 with hc | ⟨-, hm⟩
              · rw [ht2, hr] at hc; simp at hc; rw [hc1] at hc; simp at hc
              · exact hm
            have hm2 : d2 ∈ svv := by
              rcases mergeSide_code tg pt svv cls _ _ _ d2 hd2 with hc | ⟨-, hm⟩
              · rw [ht2, hr] at hc; simp at hc; rw [hc2] at hc; simp at hc
              · exact hm
            have hTL1 : hasTLIn pt svv = true := by
              unfold hasTLIn
              rw [hcorner, List.any_eq_true.mpr ⟨d1, hm1, by rw [hc1]; rfl⟩]
              rfl
            have hBL1 : hasBLIn pt svv = true := by
              unfold hasBLIn
              rw [hcorner, List.any_eq_true.mpr ⟨d2, hm2, by rw [hc2]; rfl⟩]
              rfl
            have hL1 : hasLIn pt svv = true := by
              unfold hasLIn
              rw [hTL1, hBL1]
              simp
            have : hasXIn pt svv = true := by
              unfold hasXIn
              rw [hL1, hr]
              simp
            rw [hx1] at this
            cases this
    · have hr2 : hasRIn pt svv = false := by simpa using hr
      by_cases hb : hasBIn pt svv = true
      · apply sideB_shape_stable
        · intro d hd
          rcases mergeSide_code tg pt svv cls _ _ _ d hd with hc | ⟨hcont, hm⟩
          · rw [ht2, hr2, hb] at hc; simp at hc; exact Or.inl hc
          · rw [ht2, hr2, hb] at hcont; simp at hcont
            rcases hcont with hcont | hcont
            · exact Or.inr hcont
            · exfalso
              have hTR1 : hasTRIn pt svv = true := by
                unfold hasTRIn
                rw [hcorner, List.any_eq_true.mpr ⟨d, hm, by rw [hcont]; rfl⟩]
                rfl
              have hBR1 : hasBRIn pt svv = true := by
                unfold hasBIn at hb
                rcases Bool.or_eq_true_iff.mp hb with hb2 | hb2
                · obtain ⟨d3, hm3, hd3c⟩ := List.any_eq_true.mp hb2
                  have hc3 : d3.shorthand = "b" := by simpa using hd3c
                  unfold hasBRIn
                  rw [hcorner, List.any_eq_true.mpr ⟨d3, hm3, by rw [hc3]; rfl⟩]
                  rfl
                · exact Bool.and_elim_right hb2
              have : hasRIn pt svv = true := by
                unfold hasRIn
                rw [hTR1, hBR1]
                simp
              rw [hr2] at this
              cases this
        · obtain ⟨d, hd, hdc⟩ := mergeSide_head tg pt svv cls (hasTIn pt svv) (hasRIn pt svv) (hasBIn pt svv)
          rw [ht2, hr2, hb] at hdc; simp at hdc
          exact List.any_eq_true.mpr ⟨d, hd, by rw [hdc]; rfl⟩
      · have hb2 : hasBIn pt svv = false := by simpa using hb
        apply sideL_shape_stable
        · intro d hd
          rcases mergeSide_code tg pt svv cls _ _ _ d hd with hc | ⟨hcont, -⟩
          · rw [ht2, hr2, hb2] at hc; simp at hc; exact Or.inl hc
          · rw [ht2, hr2, hb2] at hcont; simp at hcont; exact Or.inr hcont
        · cases htr : (mergeSide tg pt svv cls (hasTIn pt svv) (hasRIn pt svv) (hasBIn pt svv)).1.any
              (fun c => c.shorthand == "tr") with
          | false => exact Or.inl rfl
          | true =>
            right
            cases hbr : (mergeSide tg pt svv cls (hasTIn pt svv) (hasRIn pt svv) (hasBIn pt svv)).1.any
                (fun c => c.shorthand == "br") with
            | false => exact rfl
            | true =>
              exfalso
              obtain ⟨d1, hd1, hd1c⟩ := List.any_eq_true.mp htr
              obtain ⟨d2, hd2, hd2c⟩ := List.any_eq_true.mp hbr
              have hc1 : d1.shorthand = "tr" := by simpa using hd1c
              have hc2 : d2.shorthand = "br" := by simpa using hd2c
              have hm1 : d1 ∈ svv := by
                rcases mergeSide_code tg pt svv cls _ _ _ d1 hd1 with hc | ⟨-, hm⟩
                · rw [ht2, hr2, hb2] at hc; simp at hc; rw [hc1] at hc; simp at hc
                · exact hm
              have hm2 : d2 ∈ svv := by
                rcases mergeSide_code tg pt svv cls _ _ _ d2 hd2 with hc | ⟨-, hm⟩
                · rw [ht2, hr2, hb2] at hc; simp at hc; rw [hc2] at hc; simp at hc
                · exact hm
              have hTR1 : hasTRIn pt svv = true := by
                unfold hasTRIn
                rw [hcorner, List.any_eq_true.mpr ⟨d1, hm1, by rw [hc1]; rfl⟩]
                rfl
              have hBR1 : hasBRIn pt svv = true := by
                unfold hasBRIn
                rw [hcorner, List.any_eq_true.mpr ⟨d2, hm2, by rw [hc2]; rfl⟩]
                rfl
              have : hasRIn pt svv = true := by
                unfold hasRIn
                rw [hTR1, hBR1]
                simp
              rw [hr2] at this
              cases this

/-- When a candidate set is exactly the output of some first-run key
processing, re-processing it records only troubles with an empty subsumed
list. -/
theorem processKey_block_stable (tg : List MainGroup) (pt : String)
    (st1 : List ClassDescriptor) (cls1 : ClassDescriptor)
    (st2 : List ClassDescriptor) (cls2 : ClassDescriptor)
    (hs : sameVariantAndValueOf st2 cls2 = (processKey tg pt st1 cls1).1) :
    ∀ p ∈ (processKey tg pt st2 cls2).2, p.1 = [] := by
  intro p hp
  unfold processKey at hp
  split_ifs at hp with k1 k2
  · simp at hp
  · rw [hs] at hp k1 k2
    unfold processKey at hp k1 k2
    split_ifs at hp k1 k2 with j1 j2
    · simp at k1
    · by_cases hAll1 : hasAllIn pt (sameVariantAndValueOf st1 cls1) = true
      · have he : resolveSet tg pt (sameVariantAndValueOf st1 cls1) cls1 =
            mergeAll tg pt (sameVariantAndValueOf st1 cls1) cls1 := by
          unfold resolveSet; rw [hAll1]; simp
        rw [he] at k1
        simp [mergeAll] at k1
      · have hAll1f : hasAllIn pt (sameVariantAndValueOf st1 cls1) = false := by simpa using hAll1
        by_cases hAx1 : (hasYIn pt (sameVariantAndValueOf st1 cls1) ||
            hasXIn pt (sameVariantAndValueOf st1 cls1)) = true
        · have he : resolveSet tg pt (sameVariantAndValueOf st1 cls1) cls1 =
              mergeAxis tg pt (sameVariantAndValueOf st1 cls1) cls1
                (hasXIn pt (sameVariantAndValueOf st1 cls1))
                (hasYIn pt (sameVariantAndValueOf st1 cls1)) := by
            unfold resolveSet; rw [hAll1f, hAx1]; simp
          rw [he] at hp
          exact mergeAxis_block_stable tg tg pt _ cls1 hAll1f hAx1 cls2 p hp
        · have hAx1f : (hasYIn pt (sameVariantAndValueOf st1 cls1) ||
              hasXIn pt (sameVariantAndValueOf st1 cls1)) = false := by simpa using hAx1
          by_cases hS1 : (supportCornersOf pt &&
              (hasTIn pt (sameVariantAndValueOf st1 cls1) ||
               hasRIn pt (sameVariantAndValueOf st1 cls1) ||
               hasBIn pt (sameVariantAndValueOf st1 cls1) ||
               hasLIn pt (sameVariantAndValueOf st1 cls1))) = true
          · have he : resolveSet tg pt (sameVariantAndValueOf st1 cls1) cls1 =
                mergeSide tg pt (sameVariantAndValueOf st1 cls1) cls1
                  (hasTIn pt (sameVariantAndValueOf st1 cls1))
                  (hasRIn pt (sameVariantAndValueOf st1 cls1))
                  (hasBIn pt (sameVariantAndValueOf st1 cls1)) := by
              unfold resolveSet; rw [hAll1f, hAx1f, hS1]; simp
            rw [he] at hp
            exact mergeSide_block_stable tg tg pt _ cls1 hAx1f hS1 cls2 p hp
          · have hS1f : (supportCornersOf pt &&
                (hasTIn pt (sameVariantAndValueOf st1 cls1) ||
                 hasRIn pt (sameVariantAndValueOf st1 cls1) ||
                 hasBIn pt (sameVariantAndValueOf st1 cls1) ||
                 hasLIn pt (sameVariantAndValueOf st1 cls1))) = false := by simpa using hS1
            have he : resolveSet tg pt (sameVariantAndValueOf st1 cls1) cls1 =
                (sameVariantAndValueOf st1 cls1, ([] : List (List String × String))) := by
              unfold resolveSet; rw [hAll1f, hAx1f, hS1f]; simp
            rw [he] at hp
            exact else_shape_stable tg pt _ hAll1f hAx1f hS1f cls2 p hp
    · simp at k2
  · simp at hp

/-- Claim C8: the analysis is idempotent.  Re-running the grouping and
merging pass on its own validated output produces no trouble that
survives the nonempty-subsumed filter, so the report loop of a second run
emits no finding and leaves the replacement text unchanged.  Re-analysis
is embedded at the descriptor level: the second run consumes the
validated descriptors themselves, which models re-parsing the replacement
text under the spec's parse interface (the external parser, not among the
sources, maps each emitted class name back to its descriptor). -/
theorem rerun_produces_no_findings (tg : List MainGroup) (parsed : List ClassDescriptor) :
    ((processParsed tg ((processParsed tg parsed).1)).2).filter
      (fun t => t.1.length != 0) = [] ∧
    ∀ (op pre suf v : String),
      reportLoop op pre suf (((processParsed tg ((processParsed tg parsed).1)).2).filter
        (fun t => t.1.length != 0)) v = [] := by
  have hmain : ∀ p ∈ (processParsed tg ((processParsed tg parsed).1)).2, p.1 = [] := by
    intro p hp
    obtain ⟨c, cls2, hcne, hpk⟩ :=
      outerLoop_trouble_src tg ((processParsed tg parsed).1) _ [] p hp
    rcases outerLoop_block tg parsed parsed [] c cls2 hcne with hb | ⟨st1, cls1, hb⟩
    · unfold processKey at hpk
      rw [show (processParsed tg parsed).1 = (outerLoop tg parsed parsed []).1 from rfl] at hpk
      rw [hb] at hpk
      simp at hpk
    · refine processKey_block_stable tg c.parentType st1 cls1 _ cls2 ?_ p hpk
      exact hb
  have hfil : ((processParsed tg ((processParsed tg parsed).1)).2).filter
      (fun t => t.1.length != 0) = [] := by
    rw [List.filter_eq_nil_iff]
    intro p hp
    rw [hmain p hp]
    simp
  refine ⟨hfil, ?_⟩
  intro op pre suf v
  rw [hfil]
  rfl
